import Mathlib

/-!
# Verification of the hierarchical multi-map pathfinder

A shallow embedding of the navigation core of the repository
(`src/lib/pathfinder.ts` and `src/types/navigation.ts`) together with
proofs of its specified properties.

Modelling conventions:
* JavaScript objects used as string-keyed dictionaries (`Record`, `Map`)
  become association lists `List (String × α)`; absence of a key models
  `undefined` (respectively the `Infinity` / `null` initialisation of the
  Dijkstra tables, which is observationally identical to absence here).
* Edge weights are natural numbers (the specification restricts weights to
  non-negative values; behaviour for negative weights is undefined).
* The `while` loops are expressed with an explicit fuel argument; the fuel
  passed by the entry points is proved sufficient, so the exhaustion branch
  is unreachable on every execution.
* `Array.prototype.sort`, which is guaranteed stable and sorted, is
  modelled by a stable insertion sort; no proved property depends on the
  order of queue items with equal distances.
* `String.prototype.trim` is modelled by `jsTrim`, dropping leading and
  trailing whitespace from the character list.
* Exceptions (`PathfinderError`) become `Except PathfinderError` values;
  the collaborators `getAllMaps` / `getMap` of `lib/mapService` become
  explicit parameters (a list of maps and a partial lookup function).
-/

deriving instance DecidableEq for Except

namespace IndoorNav

/-! ## Data model (`src/types/navigation.ts`) -/

/-- Node classification types (`NodeType`). -/
inductive NodeType where
  | NORMAL
  | ROOM
  | GATEWAY
deriving DecidableEq

/-- Gateway configuration for nodes that connect different maps. -/
structure GatewayConfig where
  targetMapId : String
  targetNodeId : String
deriving DecidableEq

/-- A navigation node. Fields irrelevant to the algorithms (coordinates,
name, description) are dropped from the embedding; `gatewayConfig` is
optional exactly as in the source. -/
structure Node where
  id : String
  type : NodeType
  gatewayConfig : Option GatewayConfig
deriving DecidableEq

/-- A weighted directed edge to `targetNodeId`. -/
structure Edge where
  targetNodeId : String
  weight : Nat
deriving DecidableEq

/-- A map: its id, nodes and adjacency structure
(`Record<string, Edge[]>` as an association list). -/
structure MapData where
  id : String
  nodes : List Node
  adjacencyList : List (String × List Edge)
deriving DecidableEq

/-- Association-list lookup, the model of JavaScript key access. -/
def lookupA {α : Type} : List (String × α) → String → Option α
  | [], _ => none
  | (k, v) :: rest, key => if k = key then some v else lookupA rest key

/-- Association-list update, the model of `Map.set` / object assignment. -/
def setA {α : Type} : List (String × α) → String → α → List (String × α)
  | [], key, v => [(key, v)]
  | (k, w) :: rest, key, v =>
      if k = key then (key, v) :: rest else (k, w) :: setA rest key v

/-- Key access with empty-list default: `record[key] ?? []`. -/
def lookupD {α : Type} (l : List (String × List α)) (k : String) : List α :=
  (lookupA l k).getD []

/-- Model of `String.prototype.trim`: drop leading and trailing whitespace. -/
def jsTrim (s : String) : String :=
  String.mk (((s.data.dropWhile Char.isWhitespace).reverse.dropWhile
    Char.isWhitespace).reverse)

/-- Type guard `isGatewayNode`: the node has type `GATEWAY` and a
configuration whose two fields are non-empty after trimming. -/
def isGatewayNode (node : Node) : Bool :=
  node.type == NodeType.GATEWAY &&
    match node.gatewayConfig with
    | some cfg => jsTrim cfg.targetMapId != "" && jsTrim cfg.targetNodeId != ""
    | none => false

/-! ## Pathfinder types (`src/lib/pathfinder.ts`) -/

/-- `transitionTarget` payload of a navigation segment. -/
structure TransitionTarget where
  mapId : String
  nodeId : String
deriving DecidableEq

/-- A navigation path segment within a single map. -/
structure NavigationSegment where
  mapId : String
  pathNodeIds : List String
  transitionTarget : Option TransitionTarget
deriving DecidableEq

/-- Complete navigation result. `error` is optional as in the source. -/
structure NavigationResult where
  success : Bool
  totalMaps : Nat
  totalNodes : Nat
  segments : List NavigationSegment
  error : Option String
deriving DecidableEq

/-- Internal structure for Dijkstra's priority queue. -/
structure DijkstraQueueItem where
  nodeId : String
  distance : Nat
deriving DecidableEq

/-- The `code` field of `PathfinderError`. -/
inductive ErrorCode where
  | MAP_NOT_FOUND
  | NODE_NOT_FOUND
  | NO_PATH
  | GATEWAY_NOT_FOUND
  | INVALID_INPUT
deriving DecidableEq

/-- `PathfinderError`: a message plus an error code. -/
structure PathfinderError where
  message : String
  code : ErrorCode
deriving DecidableEq

/-! ## Local pathfinding (Dijkstra) -/

/-- Mutable state of the Dijkstra search: the `distances` and `previous`
maps (absent key = `Infinity` / `null`), the `visited` set (most recent
first) and the pending queue. -/
structure DijkstraState where
  distances : List (String × Nat)
  previous : List (String × String)
  visited : List String
  queue : List DijkstraQueueItem
deriving DecidableEq

/-- Insert a queue item into a distance-sorted list, after all items of
smaller or equal distance (stable insertion). -/
def insertByDistance (x : DijkstraQueueItem) :
    List DijkstraQueueItem → List DijkstraQueueItem
  | [] => [x]
  | y :: rest =>
      if y.distance ≤ x.distance then y :: insertByDistance x rest
      else x :: y :: rest

/-- Stable sort by distance, the model of
`queue.sort((a, b) => a.distance - b.distance)`. -/
def sortByDistance : List DijkstraQueueItem → List DijkstraQueueItem
  | [] => []
  | x :: rest => insertByDistance x (sortByDistance rest)

/-- The state change of one improving relaxation of the edge `e` out of
the node `current`: update `distances` and `previous` at the target and
push a fresh queue entry (`newDistance = current.distance + e.weight`). -/
def relaxUpdate (current : DijkstraQueueItem) (e : Edge) (s : DijkstraState) :
    DijkstraState :=
  { s with
    distances := setA s.distances e.targetNodeId (current.distance + e.weight)
    previous := setA s.previous e.targetNodeId current.nodeId
    queue := s.queue ++ [⟨e.targetNodeId, current.distance + e.weight⟩] }

/-- Relax the outgoing edges of the node just visited (`current`): for each
edge to an unvisited target whose tentative distance strictly improves
(`?? Infinity` modelled by the `none` case), apply `relaxUpdate`. -/
def relaxEdges (current : DijkstraQueueItem) :
    List Edge → DijkstraState → DijkstraState
  | [], s => s
  | e :: rest, s =>
      if e.targetNodeId ∈ s.visited then relaxEdges current rest s
      else
        match lookupA s.distances e.targetNodeId with
        | some currentBest =>
            if current.distance + e.weight < currentBest then
              relaxEdges current rest (relaxUpdate current e s)
            else relaxEdges current rest s
        | none => relaxEdges current rest (relaxUpdate current e s)

/-- The Dijkstra main loop: sort the queue, pop the minimum, skip visited
entries, stop on the destination, otherwise relax the outgoing edges.
The fuel argument only forces termination; `findLocalPath` passes a fuel
value proved large enough for the exhaustion branch to be unreachable. -/
def dijkstraLoop (mapData : MapData) (endId : String) :
    Nat → DijkstraState → DijkstraState
  | 0, s => s
  | fuel + 1, s =>
      match sortByDistance s.queue with
      | [] => s
      | current :: rest =>
          if current.nodeId ∈ s.visited then
            dijkstraLoop mapData endId fuel { s with queue := rest }
          else
            let s2 : DijkstraState :=
              { s with queue := rest, visited := current.nodeId :: s.visited }
            if current.nodeId = endId then s2
            else
              dijkstraLoop mapData endId fuel
                (relaxEdges current
                  (lookupD mapData.adjacencyList current.nodeId) s2)

/-- Walk the predecessor pointers backward, prepending each node
(`path.unshift`). The fuel passed by `findLocalPath` is proved sufficient
whenever the search terminated. -/
def reconstructPath (previous : List (String × String)) :
    Nat → String → List String → List String
  | 0, _, acc => acc
  | fuel + 1, currentNode, acc =>
      match lookupA previous currentNode with
      | none => currentNode :: acc
      | some p => reconstructPath previous fuel p (currentNode :: acc)

/-- Total number of edge entries in an adjacency structure; used to bound
the number of loop iterations. -/
def adjSize (adj : List (String × List Edge)) : Nat :=
  (adj.map (fun p => p.2.length)).sum

/-- Fuel for the Dijkstra loop: strictly more than the largest possible
number of iterations (one initial pop plus one pop per pushed entry, and
at most one push per adjacency-list edge). -/
def dijkstraFuel (mapData : MapData) : Nat :=
  2 + adjSize mapData.adjacencyList

def nodeNotFoundMsg (which nodeId mapId : String) : String :=
  which ++ " node " ++ nodeId ++ " not found in map " ++ mapId

def noPathMsg (startId endId mapId : String) : String :=
  "No path exists from " ++ startId ++ " to " ++ endId ++ " in map " ++ mapId

/-- `findLocalPath`: shortest path between two nodes of one map. -/
def findLocalPath (mapData : MapData) (startId endId : String) :
    Except PathfinderError (List String) :=
  if startId = endId then .ok [startId]
  else
    let nodeIds := mapData.nodes.map (fun n => n.id)
    if startId ∉ nodeIds then
      .error ⟨nodeNotFoundMsg "Start" startId mapData.id, .NODE_NOT_FOUND⟩
    else if endId ∉ nodeIds then
      .error ⟨nodeNotFoundMsg "End" endId mapData.id, .NODE_NOT_FOUND⟩
    else
      let s0 : DijkstraState :=
        { distances := [(startId, 0)]
          previous := []
          visited := []
          queue := [⟨startId, 0⟩] }
      let sf := dijkstraLoop mapData endId (dijkstraFuel mapData) s0
      let path := reconstructPath sf.previous (sf.previous.length + 1) endId []
      if path.head? = some startId then .ok path
      else .error ⟨noPathMsg startId endId mapData.id, .NO_PATH⟩

/-! ## Global pathfinding (map chain, BFS) -/

/-- Record the gateway targets of the nodes of one map into the meta-graph
entry of `mapId` (connections are appended once). -/
def scanMapGateways (mapId : String) :
    List Node → List (String × List String) → List (String × List String)
  | [], g => g
  | node :: rest, g =>
      if isGatewayNode node then
        match node.gatewayConfig with
        | some cfg =>
            let conns := lookupD g mapId
            if cfg.targetMapId ∈ conns then scanMapGateways mapId rest g
            else scanMapGateways mapId rest (setA g mapId (conns ++ [cfg.targetMapId]))
        | none => scanMapGateways mapId rest g
      else scanMapGateways mapId rest g

/-- First phase of `buildMapMetaGraph`: every map id becomes a key with an
empty connection list. -/
def initMetaGraph : List MapData → List (String × List String)
  | [] => []
  | m :: rest => setA (initMetaGraph rest) m.id []

/-- Second phase of `buildMapMetaGraph`: scan every map for gateways. -/
def scanAllMaps : List MapData → List (String × List String) → List (String × List String)
  | [], g => g
  | m :: rest, g => scanAllMaps rest (scanMapGateways m.id m.nodes g)

/-- `buildMapMetaGraph`: adjacency list of map connections. -/
def buildMapMetaGraph (allMaps : List MapData) : List (String × List String) :=
  scanAllMaps allMaps (initMetaGraph allMaps)

/-- A queued BFS entry: a map id and the chain that reached it. -/
structure BfsItem where
  mapId : String
  path : List String
deriving DecidableEq

/-- The BFS main loop over the meta-graph. Returns the first chain that
dequeues the destination, or `none` when the queue empties. As for
Dijkstra, the fuel passed by `findMapChain` is proved sufficient. -/
def bfsLoop (metaGraph : List (String × List String)) (endMapId : String) :
    Nat → List String → List BfsItem → Option (List String)
  | 0, _, _ => none
  | fuel + 1, visited, queue =>
      match queue with
      | [] => none
      | current :: rest =>
          if current.mapId = endMapId then some current.path
          else if current.mapId ∈ visited then
            bfsLoop metaGraph endMapId fuel visited rest
          else
            let connectedMaps := lookupD metaGraph current.mapId
            let pushes := (connectedMaps.filter (fun m => m ∉ visited)).map
              (fun m => BfsItem.mk m (current.path ++ [m]))
            bfsLoop metaGraph endMapId fuel (current.mapId :: visited) (rest ++ pushes)

/-- Total number of connection entries of the meta-graph. -/
def metaSize (g : List (String × List String)) : Nat :=
  (g.map (fun p => p.2.length)).sum

/-- Fuel for the BFS loop, strictly larger than any possible number of
iterations. -/
def bfsFuel (g : List (String × List String)) : Nat :=
  2 + metaSize g

def mapNotFoundMsg (which mapId : String) : String :=
  which ++ " map " ++ mapId ++ " not found"

def noRouteMsg (startMapId endMapId : String) : String :=
  "No route exists from map " ++ startMapId ++ " to map " ++ endMapId

/-- `findMapChain`: shortest sequence of maps to traverse. -/
def findMapChain (startMapId endMapId : String) (allMaps : List MapData) :
    Except PathfinderError (List String) :=
  if startMapId = endMapId then .ok [startMapId]
  else
    let metaGraph := buildMapMetaGraph allMaps
    if (lookupA metaGraph startMapId).isNone then
      .error ⟨mapNotFoundMsg "Start" startMapId, .MAP_NOT_FOUND⟩
    else if (lookupA metaGraph endMapId).isNone then
      .error ⟨mapNotFoundMsg "End" endMapId, .MAP_NOT_FOUND⟩
    else
      match bfsLoop metaGraph endMapId (bfsFuel metaGraph) []
        [⟨startMapId, [startMapId]⟩] with
      | some path => .ok path
      | none => .error ⟨noRouteMsg startMapId endMapId, .NO_PATH⟩

/-! ## Gateway utilities -/

/-- `findAllGatewaysToMap`: the valid gateway nodes whose descriptor
targets `targetMapId` (the debug logging of the source is pure output and
is not modelled). -/
def findAllGatewaysToMap (mapData : MapData) (targetMapId : String) : List Node :=
  mapData.nodes.filter (fun node =>
    isGatewayNode node &&
      match node.gatewayConfig with
      | some cfg => cfg.targetMapId == targetMapId
      | none => false)

/-- `calculatePathDistance`: total weight of a node-id path, following for
each consecutive pair the first matching adjacency entry and treating
missing edges as weight `0`. This is also literally the distance
computation inside `findBestGateway`. -/
def calculatePathDistance (mapData : MapData) : List String → Nat
  | currentNodeId :: nextNodeId :: rest =>
      (match (lookupD mapData.adjacencyList currentNodeId).find?
          (fun e => e.targetNodeId == nextNodeId) with
        | some e => e.weight
        | none => 0) +
        calculatePathDistance mapData (nextNodeId :: rest)
  | _ => 0

/-- The accumulator fold of `findBestGateway`: try each gateway in order,
keep the reachable one of strictly smallest computed distance. -/
def bestGatewayFold (mapData : MapData) (startNodeId : String) :
    List Node → Option (Node × List String × Nat) → Option (Node × List String × Nat)
  | [], best => best
  | gateway :: rest, best =>
      match findLocalPath mapData startNodeId gateway.id with
      | .error _ => bestGatewayFold mapData startNodeId rest best
      | .ok path =>
          let distance := calculatePathDistance mapData path
          match best with
          | none => bestGatewayFold mapData startNodeId rest (some (gateway, path, distance))
          | some (bg, bp, bestDistance) =>
              if distance < bestDistance then
                bestGatewayFold mapData startNodeId rest (some (gateway, path, distance))
              else bestGatewayFold mapData startNodeId rest (some (bg, bp, bestDistance))

/-- `findBestGateway`: among the valid gateways towards `targetMapId`,
pick one minimising the local-path distance from `startNodeId`; `none`
when there is no candidate or none is reachable. -/
def findBestGateway (mapData : MapData) (startNodeId targetMapId : String) :
    Option (Node × List String) :=
  let gateways := findAllGatewaysToMap mapData targetMapId
  if gateways.length = 0 then none
  else
    (bestGatewayFold mapData startNodeId gateways none).map
      (fun b => (b.1, b.2.1))

/-! ## Main navigation function -/

def gatewayNotFoundMsg (currentMapId nextMapId : String) : String :=
  "No gateway found from map " ++ currentMapId ++ " to map " ++ nextMapId

def invalidInputMsg : String :=
  "All parameters (startMapId, startNodeId, endMapId, endNodeId) are required"

/-- Prepending the current segment to the outcome of the recursive call of
`buildSegments`: an error of the tail aborts the whole assembly (the
exception propagates through the loop in the source). -/
def segCons (currentMapId : String) (path : List String) (cfg : GatewayConfig) :
    Except PathfinderError (List NavigationSegment) →
      Except PathfinderError (List NavigationSegment)
  | .error e => .error e
  | .ok restSegments =>
      .ok (⟨currentMapId, path, some ⟨cfg.targetMapId, cfg.targetNodeId⟩⟩
        :: restSegments)

/-- Step B of `generateNavigationPath`: build one segment per map of the
chain, threading the entry node id. `getMap` is the external collaborator
fetching one map by id. -/
def buildSegments (getMap : String → Option MapData) (endNodeId : String) :
    List String → String → Except PathfinderError (List NavigationSegment)
  | [], _ => .ok []
  | currentMapId :: restChain, currentEntryNodeId =>
      match getMap currentMapId with
      | none => .error ⟨mapNotFoundMsg "" currentMapId, .MAP_NOT_FOUND⟩
      | some mapData =>
          match restChain with
          | [] =>
              match findLocalPath mapData currentEntryNodeId endNodeId with
              | .error e => .error e
              | .ok pathNodeIds => .ok [⟨currentMapId, pathNodeIds, none⟩]
          | nextMapId :: _ =>
              match findBestGateway mapData currentEntryNodeId nextMapId with
              | none => .error ⟨gatewayNotFoundMsg currentMapId nextMapId, .GATEWAY_NOT_FOUND⟩
              | some (gateway, path) =>
                  let cfg := gateway.gatewayConfig.getD ⟨"", ""⟩
                  segCons currentMapId path cfg
                    (buildSegments getMap endNodeId restChain cfg.targetNodeId)

/-- The body of the `try` block of `generateNavigationPath`: input
validation, chain computation, segment assembly; any raised
`PathfinderError` is the `.error` outcome. -/
def navRun (allMaps : List MapData) (getMap : String → Option MapData)
    (startMapId startNodeId endMapId endNodeId : String) :
    Except PathfinderError (List String × List NavigationSegment) :=
  if startMapId = "" ∨ startNodeId = "" ∨ endMapId = "" ∨ endNodeId = "" then
    .error ⟨invalidInputMsg, .INVALID_INPUT⟩
  else
    match findMapChain startMapId endMapId allMaps with
    | .error e => .error e
    | .ok mapChain =>
        match buildSegments getMap endNodeId mapChain startNodeId with
        | .error e => .error e
        | .ok segments => .ok (mapChain, segments)

/-- `generateNavigationPath`: the public entry point. The collaborators
`getAllMaps` / `getMap` are passed explicitly; every internal failure is
caught and normalised to an unsuccessful `NavigationResult`. -/
def generateNavigationPath (allMaps : List MapData) (getMap : String → Option MapData)
    (startMapId startNodeId endMapId endNodeId : String) : NavigationResult :=
  match navRun allMaps getMap startMapId startNodeId endMapId endNodeId with
  | .ok (mapChain, segments) =>
      { success := true
        totalMaps := mapChain.length
        totalNodes := (segments.map (fun seg => seg.pathNodeIds.length)).sum
        segments := segments
        error := none }
  | .error e =>
      { success := false, totalMaps := 0, totalNodes := 0, segments := []
        error := some e.message }

/-! ## Validation -/

/-- The pairwise checks of `validateNavigationResult`: every non-final
segment carries a transition target matching the next segment. -/
def pairwiseSegmentsOk : List NavigationSegment → Bool
  | current :: next :: rest =>
      (match current.transitionTarget with
        | none => false
        | some t =>
            t.mapId == next.mapId && next.pathNodeIds.head? == some t.nodeId) &&
        pairwiseSegmentsOk (next :: rest)
  | _ => true

/-- `validateNavigationResult`: checks that a result is executable. -/
def validateNavigationResult (result : NavigationResult) : Bool :=
  if !result.success || result.segments.length == 0 then false
  else
    pairwiseSegmentsOk result.segments &&
      match result.segments.getLast? with
      | some lastSegment => lastSegment.transitionTarget == none
      | none => true

/-- Specification-side link condition between two consecutive segments:
the earlier one announces a transition onto the map of the later one, and
the later path begins at the announced entry node. -/
def SegLink (a b : NavigationSegment) : Prop :=
  ∃ t : TransitionTarget, a.transitionTarget = some t ∧
    t.mapId = b.mapId ∧ b.pathNodeIds.head? = some t.nodeId


/-! ## Specification-side definitions

Mathematical notions the theorems are stated with: graph walks, the
predecessor-chain relation, the Dijkstra loop invariant and the
termination potential of the loops. -/

/-- Sum of the sizes of the entries whose key is not yet visited: an upper
bound on the number of queue entries the search can still push. -/
def remSize {α : Type} : List (String × List α) → List String → Nat
  | [], _ => 0
  | (k, vs) :: rest, visited =>
      (if k ∈ visited then 0 else vs.length) + remSize rest visited

/-- One directed step: the adjacency structure of `m` has an edge of weight
`w` from `a` to `b`. -/
def EdgeStep (m : MapData) (a b : String) (w : Nat) : Prop :=
  ∃ e ∈ lookupD m.adjacencyList a, e.targetNodeId = b ∧ e.weight = w

/-- `WalkList m a b l c`: `l` is a walk from `a` to `b` along edges of `m`
with total weight `c`. -/
inductive WalkList (m : MapData) : String → String → List String → Nat → Prop
  | nil (a : String) : WalkList m a a [a] 0
  | cons {a b c : String} {l : List String} {w d : Nat} :
      EdgeStep m a b w → WalkList m b c l d → WalkList m a c (a :: l) (w + d)

/-- Some walk of total weight `c` goes from `a` to `b`. -/
def HasWalk (m : MapData) (a b : String) (c : Nat) : Prop :=
  ∃ l, WalkList m a b l c

/-- `b` can be reached from `a` along edges of `m`. -/
def ReachableIn (m : MapData) (a b : String) : Prop :=
  ∃ c, HasWalk m a b c

/-- `PrevChain previous v l`: following the predecessor map backward from
`v` terminates, and `l` is the resulting node list in forward order
(ending at `v`). -/
inductive PrevChain (previous : List (String × String)) : String → List String → Prop
  | base {v : String} : lookupA previous v = none → PrevChain previous v [v]
  | step {v u : String} {l : List String} :
      lookupA previous v = some u → PrevChain previous u l →
      PrevChain previous v (l ++ [v])

/-- Invariant of the Dijkstra search state, relative to the map `m` and
the start node. -/
structure DInv (m : MapData) (startId : String) (s : DijkstraState) : Prop where
  startMem : startId ∈ s.visited
  startDist : lookupA s.distances startId = some 0
  startPrev : lookupA s.previous startId = none
  sound : ∀ v d, lookupA s.distances v = some d → HasWalk m startId v d
  queueSound : ∀ it ∈ s.queue, ∃ d, lookupA s.distances it.nodeId = some d ∧
    d ≤ it.distance ∧ HasWalk m startId it.nodeId it.distance
  fresh : ∀ v d, v ∉ s.visited → lookupA s.distances v = some d →
    (⟨v, d⟩ : DijkstraQueueItem) ∈ s.queue
  visitedDist : ∀ u ∈ s.visited, ∃ du, lookupA s.distances u = some du ∧
    ∀ c, HasWalk m startId u c → du ≤ c
  chain : ∀ v d, lookupA s.distances v = some d → ∃ l, PrevChain s.previous v l ∧
    WalkList m startId v l d ∧ l.Nodup ∧ ∀ x ∈ l, x ∈ s.visited ∨ x = v
  prevDom : ∀ v u, lookupA s.previous v = some u →
    ∃ d, lookupA s.distances v = some d

/-- Every listed edge of `u` has been relaxed: its target is visited or
carries a tentative distance at most `dist u + weight`. -/
def RelaxedFor (s : DijkstraState) (u : String) (es : List Edge) : Prop :=
  ∀ e ∈ es, e.targetNodeId ∈ s.visited ∨
    ∃ du d2, lookupA s.distances u = some du ∧
      lookupA s.distances e.targetNodeId = some d2 ∧ d2 ≤ du + e.weight

/-- All outgoing edges of all visited nodes have been relaxed. -/
def RelaxedAll (m : MapData) (s : DijkstraState) : Prop :=
  ∀ u ∈ s.visited, RelaxedFor s u (lookupD m.adjacencyList u)

/-- Termination potential of a Dijkstra state. -/
def dPhi (m : MapData) (s : DijkstraState) : Nat :=
  s.queue.length + remSize m.adjacencyList s.visited

/-- The final state of the search performed by `findLocalPath` once the
existence checks have passed. -/
def dijkstraRun (m : MapData) (startId endId : String) : DijkstraState :=
  dijkstraLoop m endId (dijkstraFuel m)
    ⟨[(startId, 0)], [], [], [⟨startId, 0⟩]⟩


/-- The derived gateway relation of the spec: map `a` of the collection
contains at least one valid gateway node whose descriptor targets `b`. -/
def GatewayConnected (allMaps : List MapData) (a b : String) : Prop :=
  ∃ mp ∈ allMaps, mp.id = a ∧ ∃ n ∈ mp.nodes, isGatewayNode n = true ∧
    ∃ cfg, n.gatewayConfig = some cfg ∧ cfg.targetMapId = b

/-- A gateway chain over the map collection: consecutive map ids connected
by at least one valid gateway. -/
inductive GatewayChain (allMaps : List MapData) : String → String → List String → Prop
  | nil (a : String) : GatewayChain allMaps a a [a]
  | cons {a b c : String} {l : List String} :
      GatewayConnected allMaps a b → GatewayChain allMaps b c l →
      GatewayChain allMaps a c (a :: l)

/-- A chain over an already-built meta-graph. -/
inductive MapChain (g : List (String × List String)) : String → String → List String → Prop
  | nil (a : String) : MapChain g a a [a]
  | cons {a b c : String} {l : List String} :
      b ∈ lookupD g a → MapChain g b c l → MapChain g a c (a :: l)

/-- Ghost invariant of the BFS loop: a level function `lev` records, for
each visited map id, the length of the (optimal) chain it was dequeued
with. -/
structure BInv (g : List (String × List String)) (startMapId endMapId : String)
    (lev : String → Nat) (visited : List String) (queue : List BfsItem) : Prop where
  startMem : startMapId ∈ visited
  endNotVis : endMapId ∉ visited
  levSound : ∀ u ∈ visited, (∃ l, MapChain g startMapId u l ∧ l.length = lev u) ∧
    ∀ l2, MapChain g startMapId u l2 → lev u ≤ l2.length
  queueChain : ∀ it ∈ queue, MapChain g startMapId it.mapId it.path
  sortedQ : queue.Pairwise (fun x y => x.path.length ≤ y.path.length)
  spreadQ : ∀ x ∈ queue, ∀ y ∈ queue, x.path.length ≤ y.path.length + 1
  relaxedQ : ∀ u ∈ visited, ∀ y ∈ lookupD g u, y ∈ visited ∨
    ∃ it ∈ queue, it.mapId = y ∧ it.path.length ≤ lev u + 1
  levLe : ∀ u ∈ visited, ∀ it ∈ queue, lev u ≤ it.path.length

/-- Termination potential of a BFS state. -/
def bPhi (g : List (String × List String)) (visited : List String)
    (queue : List BfsItem) : Nat :=
  queue.length + remSize g visited

/-- The search performed by `findMapChain` once the key checks have
passed. -/
def bfsRun (g : List (String × List String)) (startMapId endMapId : String) :
    Option (List String) :=
  bfsLoop g endMapId (bfsFuel g) [] [⟨startMapId, [startMapId]⟩]

/-! ## Concrete fixtures

Small maps used to evaluate the proved theorems on explicit inputs. -/

/-- A map with a diamond of weighted edges, two gateways towards `M2` of
very different cost, and one isolated node `d`. -/
def sampleMapA : MapData :=
  { id := "M1"
    nodes := [⟨"a", .NORMAL, none⟩, ⟨"b", .NORMAL, none⟩, ⟨"c", .NORMAL, none⟩,
      ⟨"d", .NORMAL, none⟩, ⟨"g1", .GATEWAY, some ⟨"M2", "e1"⟩⟩,
      ⟨"g2", .GATEWAY, some ⟨"M2", "e2"⟩⟩]
    adjacencyList :=
      [("a", [⟨"b", 2⟩, ⟨"c", 10⟩, ⟨"g1", 5⟩, ⟨"g2", 50⟩]),
       ("b", [⟨"c", 3⟩]),
       ("c", [⟨"b", 3⟩])] }

/-- The target map of the gateways of `sampleMapA`. -/
def sampleMapB : MapData :=
  { id := "M2"
    nodes := [⟨"e1", .NORMAL, none⟩, ⟨"e2", .NORMAL, none⟩, ⟨"r", .ROOM, none⟩]
    adjacencyList := [("e1", [⟨"r", 1⟩]), ("e2", [⟨"r", 7⟩])] }

/-- A one-map collection whose only gateway targets a map id that is not
in the collection. -/
def gwOnlyMap : MapData :=
  { id := "A"
    nodes := [⟨"gx", .GATEWAY, some ⟨"X", "entry"⟩⟩]
    adjacencyList := [] }

/-- Collaborator fetching the two sample maps by id. -/
def sampleGetMap : String → Option MapData := fun i =>
  if i = "M1" then some sampleMapA
  else if i = "M2" then some sampleMapB
  else none

/-! ## Association-list lemmas -/

theorem lookupA_setA_self {α : Type} (l : List (String × α)) (k : String) (v : α) :
    lookupA (setA l k v) k = some v := by
  induction l with
  | nil => simp [setA, lookupA]
  | cons hd tl ih =>
      obtain ⟨k0, v0⟩ := hd
      by_cases h : k0 = k
      · simp [setA, h, lookupA]
      · simp [setA, h, lookupA, ih]

theorem lookupA_setA_ne {α : Type} (l : List (String × α)) (k k0 : String) (v : α)
    (h : k ≠ k0) : lookupA (setA l k v) k0 = lookupA l k0 := by
  induction l with
  | nil => simp [setA, lookupA, h]
  | cons hd tl ih =>
      obtain ⟨k1, v1⟩ := hd
      by_cases h1 : k1 = k
      · subst h1
        simp [setA, lookupA, h]
      · simp [setA, h1, lookupA, ih]

theorem lookupA_eq_none_iff {α : Type} (l : List (String × α)) (k : String) :
    lookupA l k = none ↔ k ∉ l.map Prod.fst := by
  induction l with
  | nil => simp [lookupA]
  | cons hd tl ih =>
      obtain ⟨k0, v0⟩ := hd
      by_cases h : k0 = k
      · simp [lookupA, h]
      · simp [lookupA, h, ih, Ne.symm h]

theorem lookupA_isSome_iff {α : Type} (l : List (String × α)) (k : String) :
    (lookupA l k).isSome ↔ k ∈ l.map Prod.fst := by
  constructor
  · intro h
    by_contra hk
    rw [← lookupA_eq_none_iff] at hk
    rw [hk] at h
    cases h
  · intro h
    rcases hl : lookupA l k with _ | v
    · exact absurd h ((lookupA_eq_none_iff l k).mp hl)
    · rfl

theorem setA_keys_of_mem {α : Type} (l : List (String × α)) (k : String) (v : α)
    (h : k ∈ l.map Prod.fst) : (setA l k v).map Prod.fst = l.map Prod.fst := by
  induction l with
  | nil => simp at h
  | cons hd tl ih =>
      obtain ⟨k0, v0⟩ := hd
      by_cases h0 : k0 = k
      · simp [setA, h0]
      · simp only [List.map_cons, List.mem_cons] at h
        rcases h with h | h
        · exact absurd h.symm h0
        · simp [setA, h0, ih h]

theorem setA_keys_of_not_mem {α : Type} (l : List (String × α)) (k : String) (v : α)
    (h : k ∉ l.map Prod.fst) : (setA l k v).map Prod.fst = l.map Prod.fst ++ [k] := by
  induction l with
  | nil => simp [setA]
  | cons hd tl ih =>
      obtain ⟨k0, v0⟩ := hd
      simp only [List.map_cons, List.mem_cons] at h
      push_neg at h
      simp [setA, Ne.symm h.1, ih h.2]

theorem setA_keys_nodup {α : Type} (l : List (String × α)) (k : String) (v : α)
    (h : (l.map Prod.fst).Nodup) : ((setA l k v).map Prod.fst).Nodup := by
  by_cases hm : k ∈ l.map Prod.fst
  · rw [setA_keys_of_mem l k v hm]; exact h
  · rw [setA_keys_of_not_mem l k v hm]
    refine List.Nodup.append h (List.nodup_singleton k) ?_
    intro a ha hb
    simp only [List.mem_singleton] at hb
    subst hb
    exact hm ha

/-! ## Sorting lemmas -/

theorem mem_insertByDistance (x y : DijkstraQueueItem) (l : List DijkstraQueueItem) :
    y ∈ insertByDistance x l ↔ y = x ∨ y ∈ l := by
  induction l with
  | nil => simp [insertByDistance]
  | cons hd tl ih =>
      by_cases h : hd.distance ≤ x.distance
      · rw [insertByDistance, if_pos h]
        simp only [List.mem_cons, ih]
        tauto
      · rw [insertByDistance, if_neg h]
        simp [List.mem_cons]

theorem mem_sortByDistance (y : DijkstraQueueItem) (l : List DijkstraQueueItem) :
    y ∈ sortByDistance l ↔ y ∈ l := by
  induction l with
  | nil => simp [sortByDistance]
  | cons hd tl ih => simp [sortByDistance, mem_insertByDistance, ih]

theorem insertByDistance_sorted (x : DijkstraQueueItem) (l : List DijkstraQueueItem)
    (h : l.Pairwise (fun a b => a.distance ≤ b.distance)) :
    (insertByDistance x l).Pairwise (fun a b => a.distance ≤ b.distance) := by
  induction l with
  | nil => simp [insertByDistance]
  | cons hd tl ih =>
      rcases List.pairwise_cons.mp h with ⟨hhd, htl⟩
      by_cases hle : hd.distance ≤ x.distance
      · rw [insertByDistance, if_pos hle]
        refine List.pairwise_cons.mpr ⟨?_, ih htl⟩
        intro a ha
        rcases (mem_insertByDistance x a tl).mp ha with rfl | ha
        · exact hle
        · exact hhd a ha
      · rw [insertByDistance, if_neg hle]
        refine List.pairwise_cons.mpr ⟨?_, h⟩
        intro a ha
        rcases List.mem_cons.mp ha with rfl | ha
        · omega
        · exact le_trans (by omega) (hhd a ha)

theorem sortByDistance_sorted (l : List DijkstraQueueItem) :
    (sortByDistance l).Pairwise (fun a b => a.distance ≤ b.distance) := by
  induction l with
  | nil => simp [sortByDistance]
  | cons hd tl ih => exact insertByDistance_sorted hd _ ih

theorem sortByDistance_head_min (l : List DijkstraQueueItem)
    (current : DijkstraQueueItem) (rest : List DijkstraQueueItem)
    (h : sortByDistance l = current :: rest) :
    ∀ y ∈ rest, current.distance ≤ y.distance := by
  have hs := sortByDistance_sorted l
  rw [h] at hs
  exact List.pairwise_cons.mp hs |>.1

theorem sortByDistance_eq_nil_iff (l : List DijkstraQueueItem) :
    sortByDistance l = [] ↔ l = [] := by
  constructor
  · intro h
    rcases l with _ | ⟨x, rest⟩
    · rfl
    · exfalso
      have : x ∈ sortByDistance (x :: rest) := by
        rw [mem_sortByDistance]; simp
      rw [h] at this
      cases this
  · intro h; subst h; rfl

theorem insertByDistance_length (x : DijkstraQueueItem) (l : List DijkstraQueueItem) :
    (insertByDistance x l).length = l.length + 1 := by
  induction l with
  | nil => simp [insertByDistance]
  | cons hd tl ih =>
      by_cases h : hd.distance ≤ x.distance <;> simp [insertByDistance, h, ih]

theorem sortByDistance_length (l : List DijkstraQueueItem) :
    (sortByDistance l).length = l.length := by
  induction l with
  | nil => rfl
  | cons hd tl ih => simp [sortByDistance, insertByDistance_length, ih]

/-! ## Termination potential -/

theorem remSize_nil_visited {α : Type} (l : List (String × List α)) :
    remSize l [] = (l.map (fun p => p.2.length)).sum := by
  induction l with
  | nil => rfl
  | cons hd tl ih => obtain ⟨k, vs⟩ := hd; simp [remSize, ih]

theorem remSize_cons_le {α : Type} (l : List (String × List α)) (v : String)
    (visited : List String) : remSize l (v :: visited) ≤ remSize l visited := by
  induction l with
  | nil => exact le_refl _
  | cons hd tl ih =>
      obtain ⟨k, vs⟩ := hd
      simp only [remSize]
      by_cases h : k ∈ visited
      · simp [h, List.mem_cons, ih]
      · rw [if_neg h]
        by_cases h2 : k = v
        · rw [if_pos (by simp [h2])]
          omega
        · rw [if_neg (by simp [h2, h])]
          omega

theorem remSize_visit {α : Type} (l : List (String × List α)) (v : String)
    (visited : List String) (hv : v ∉ visited) :
    remSize l (v :: visited) + (lookupD l v).length ≤ remSize l visited := by
  induction l with
  | nil => simp [remSize, lookupD, lookupA]
  | cons hd tl ih =>
      obtain ⟨k, vs⟩ := hd
      by_cases h : k = v
      · subst h
        have h1 : remSize tl (k :: visited) ≤ remSize tl visited := remSize_cons_le tl k visited
        simp only [remSize, lookupD, lookupA, if_pos rfl, List.mem_cons, true_or, if_true,
          Option.getD_some, if_neg hv]
        omega
      · have hlk : lookupD ((k, vs) :: tl) v = lookupD tl v := by
          simp [lookupD, lookupA, h]
        rw [hlk]
        simp only [remSize]
        by_cases h2 : k ∈ visited
        · simp only [List.mem_cons, h2, or_true, if_true, zero_add]
          exact ih
        · rw [if_neg (show ¬ k ∈ v :: visited by simp [List.mem_cons, h, h2]), if_neg h2]
          omega

theorem relaxEdges_cons_vis (current : DijkstraQueueItem) (e : Edge)
    (rest : List Edge) (s : DijkstraState) (h : e.targetNodeId ∈ s.visited) :
    relaxEdges current (e :: rest) s = relaxEdges current rest s := by
  rw [relaxEdges, if_pos h]

theorem relaxEdges_cons_none (current : DijkstraQueueItem) (e : Edge)
    (rest : List Edge) (s : DijkstraState) (h : e.targetNodeId ∉ s.visited)
    (hlk : lookupA s.distances e.targetNodeId = none) :
    relaxEdges current (e :: rest) s =
      relaxEdges current rest (relaxUpdate current e s) := by
  rw [relaxEdges, if_neg h, hlk]

theorem relaxEdges_cons_lt (current : DijkstraQueueItem) (e : Edge)
    (rest : List Edge) (s : DijkstraState) (h : e.targetNodeId ∉ s.visited)
    {best : Nat} (hlk : lookupA s.distances e.targetNodeId = some best)
    (himp : current.distance + e.weight < best) :
    relaxEdges current (e :: rest) s =
      relaxEdges current rest (relaxUpdate current e s) := by
  rw [relaxEdges, if_neg h, hlk]
  exact if_pos himp

theorem relaxEdges_cons_ge (current : DijkstraQueueItem) (e : Edge)
    (rest : List Edge) (s : DijkstraState) (h : e.targetNodeId ∉ s.visited)
    {best : Nat} (hlk : lookupA s.distances e.targetNodeId = some best)
    (himp : ¬ current.distance + e.weight < best) :
    relaxEdges current (e :: rest) s = relaxEdges current rest s := by
  rw [relaxEdges, if_neg h, hlk]
  exact if_neg himp

theorem relaxEdges_queue_length (current : DijkstraQueueItem) (es : List Edge)
    (s : DijkstraState) :
    (relaxEdges current es s).queue.length ≤ s.queue.length + es.length := by
  induction es generalizing s with
  | nil => simp [relaxEdges]
  | cons e rest ih =>
      have hupd : (relaxUpdate current e s).queue.length = s.queue.length + 1 := by
        simp [relaxUpdate]
      by_cases hv : e.targetNodeId ∈ s.visited
      · rw [relaxEdges_cons_vis current e rest s hv]
        refine le_trans (ih s) ?_
        simp only [List.length_cons]
        omega
      · rcases hl : lookupA s.distances e.targetNodeId with _ | best
        · rw [relaxEdges_cons_none current e rest s hv hl]
          refine le_trans (ih _) ?_
          simp only [hupd, List.length_cons]
          omega
        · by_cases himp : current.distance + e.weight < best
          · rw [relaxEdges_cons_lt current e rest s hv hl himp]
            refine le_trans (ih _) ?_
            simp only [hupd, List.length_cons]
            omega
          · rw [relaxEdges_cons_ge current e rest s hv hl himp]
            refine le_trans (ih s) ?_
            simp only [List.length_cons]
            omega

theorem relaxEdges_visited (current : DijkstraQueueItem) (es : List Edge)
    (s : DijkstraState) : (relaxEdges current es s).visited = s.visited := by
  induction es generalizing s with
  | nil => rfl
  | cons e rest ih =>
      by_cases hv : e.targetNodeId ∈ s.visited
      · rw [relaxEdges_cons_vis current e rest s hv]; exact ih s
      · rcases hl : lookupA s.distances e.targetNodeId with _ | best
        · rw [relaxEdges_cons_none current e rest s hv hl]
          exact ih _
        · by_cases himp : current.distance + e.weight < best
          · rw [relaxEdges_cons_lt current e rest s hv hl himp]
            exact ih _
          · rw [relaxEdges_cons_ge current e rest s hv hl himp]
            exact ih s


/-! ## Walks in a map graph -/

theorem WalkList.head_start {m : MapData} {a b : String} {l : List String} {c : Nat}
    (h : WalkList m a b l c) : l.head? = some a := by
  cases h <;> rfl

theorem WalkList.nonnil {m : MapData} {a b : String} {l : List String} {c : Nat}
    (h : WalkList m a b l c) : l ≠ [] := by
  cases h <;> simp

theorem WalkList.getLast_end {m : MapData} {a b : String} {l : List String} {c : Nat}
    (h : WalkList m a b l c) : l.getLast? = some b := by
  induction h with
  | nil a => rfl
  | cons hs hw ih =>
      rename_i a b c l w d
      rw [List.getLast?_cons, ih]
      cases hw <;> simp_all

theorem WalkList.snoc_step {m : MapData} {a b t : String} {l : List String} {c w : Nat}
    (h : WalkList m a b l c) (hs : EdgeStep m b t w) :
    WalkList m a t (l ++ [t]) (c + w) := by
  induction h with
  | nil x =>
      simpa using WalkList.cons hs (WalkList.nil t)
  | cons hstep hw ih =>
      rename_i x y z l0 w0 d0
      have := WalkList.cons hstep (ih hs)
      simpa [Nat.add_assoc] using this

theorem HasWalk.snoc_walk {m : MapData} {a b t : String} {c w : Nat}
    (h : HasWalk m a b c) (hs : EdgeStep m b t w) : HasWalk m a t (c + w) := by
  obtain ⟨l, hl⟩ := h
  exact ⟨l ++ [t], hl.snoc_step hs⟩

theorem HasWalk.cons {m : MapData} {a b t : String} {c w : Nat}
    (hs : EdgeStep m a b w) (h : HasWalk m b t c) : HasWalk m a t (w + c) := by
  obtain ⟨l, hl⟩ := h
  exact ⟨a :: l, WalkList.cons hs hl⟩

/-- Any walk from inside a vertex set `vs` to the outside crosses the
boundary: it has a prefix walk to some `u ∈ vs`, one edge from `u` to some
`y ∉ vs`, and a non-negative remainder. -/
theorem walk_crossing {m : MapData} {a b : String} {l : List String} {c : Nat}
    (h : WalkList m a b l c) (vs : List String) (ha : a ∈ vs) (hb : b ∉ vs) :
    ∃ u y c1 w2 c3, u ∈ vs ∧ y ∉ vs ∧ HasWalk m a u c1 ∧ EdgeStep m u y w2 ∧
      c = c1 + w2 + c3 := by
  induction h with
  | nil x => exact absurd ha hb
  | cons hstep hw ih =>
      rename_i x y z l0 w0 d0
      by_cases hy : y ∈ vs
      · obtain ⟨u, y1, c1, w2, c3, hu, hy1, hwalk, hstep1, heq⟩ := ih hy hb
        refine ⟨u, y1, w0 + c1, w2, c3, hu, hy1, HasWalk.cons hstep hwalk, hstep1, by omega⟩
      · exact ⟨x, y, 0, w0, d0, ha, hy, ⟨[x], WalkList.nil x⟩, hstep, by omega⟩

/-! ## Predecessor chains and path reconstruction -/

theorem PrevChain.congr {previous previous2 : List (String × String)} {v : String}
    {l : List String} (h : PrevChain previous v l)
    (hsame : ∀ x ∈ l, lookupA previous2 x = lookupA previous x) :
    PrevChain previous2 v l := by
  induction h with
  | base hv =>
      rename_i v0
      exact PrevChain.base ((hsame v0 (by simp)).trans hv)
  | step hv hc ih =>
      rename_i v0 u0 l0
      refine PrevChain.step ((hsame v0 (by simp)).trans hv) (ih ?_)
      intro x hx
      exact hsame x (by simp [hx])

theorem PrevChain.chain_ne_nil {previous : List (String × String)} {v : String}
    {l : List String} (h : PrevChain previous v l) : l ≠ [] := by
  cases h <;> simp

/-- Every element of a predecessor chain except its first has an entry in
the predecessor map. -/
theorem PrevChain.tail_mem_keys {previous : List (String × String)} {v : String}
    {l : List String} (h : PrevChain previous v l) :
    ∀ x ∈ l.tail, x ∈ previous.map Prod.fst := by
  induction h with
  | base hv => simp
  | step hv hc ih =>
      rename_i v0 u0 l0
      intro x hx
      have hl0 : l0 ≠ [] := hc.chain_ne_nil
      rcases l0 with _ | ⟨h0, t0⟩
      · exact absurd rfl hl0
      · simp only [List.cons_append, List.tail_cons, List.mem_append,
          List.mem_singleton] at hx
        rcases hx with hx | rfl
        · exact ih x (by simpa using hx)
        · have : (lookupA previous x).isSome := by rw [hv]; rfl
          exact (lookupA_isSome_iff previous x).mp this

/-- A duplicate-free predecessor chain is no longer than the predecessor
map plus one. -/
theorem PrevChain.length_le {previous : List (String × String)} {v : String}
    {l : List String} (h : PrevChain previous v l) (hnd : l.Nodup) :
    l.length ≤ previous.length + 1 := by
  rcases hl : l with _ | ⟨h0, t0⟩
  · simp
  · subst hl
    have htail : ∀ x ∈ t0, x ∈ previous.map Prod.fst := by
      intro x hx
      exact h.tail_mem_keys x (by simpa using hx)
    have hsub : t0.Nodup := (List.nodup_cons.mp hnd).2
    have : t0.length ≤ (previous.map Prod.fst).length :=
      List.Subperm.length_le (List.subperm_of_subset hsub htail)
    simp only [List.length_map] at this
    simp only [List.length_cons]
    omega

/-- Running `reconstructPath` with enough fuel produces exactly the
predecessor chain, in front of the accumulator. -/
theorem reconstructPath_eq_chain {previous : List (String × String)} {v : String}
    {l : List String} (h : PrevChain previous v l) :
    ∀ fuel acc, l.length ≤ fuel → reconstructPath previous fuel v acc = l ++ acc := by
  induction h with
  | base hv =>
      rename_i v0
      intro fuel acc hf
      rcases fuel with _ | f
      · simp at hf
      · simp [reconstructPath, hv]
  | step hv hc ih =>
      rename_i v0 u0 l0
      intro fuel acc hf
      rcases fuel with _ | f
      · simp at hf
      · rw [reconstructPath]
        have hlen : l0.length ≤ f := by
          simp only [List.length_append, List.length_singleton] at hf
          omega
        simp only [hv]
        rw [ih f (v0 :: acc) hlen]
        simp

/-- As soon as one node is prepended, the reconstructed path ends with the
node reconstruction was started from. -/
theorem reconstructPath_getLast (previous : List (String × String)) :
    ∀ fuel v acc, 1 ≤ fuel ∨ acc ≠ [] →
      (reconstructPath previous fuel v acc).getLast? = (v :: acc).getLast? := by
  intro fuel
  induction fuel with
  | zero =>
      intro v acc h
      rcases h with h | h
      · omega
      · rw [reconstructPath, List.getLast?_cons]
        rcases acc with _ | ⟨a0, acc0⟩
        · exact absurd rfl h
        · rfl
  | succ f ih =>
      intro v acc h
      rw [reconstructPath]
      rcases hl : lookupA previous v with _ | p
      · rfl
      · rw [ih p (v :: acc) (Or.inr (by simp))]
        rw [List.getLast?_cons, List.getLast?_cons]
        simp

/-- If the predecessor of `v` is unset, reconstruction returns `[v]`. -/
theorem reconstructPath_of_none {previous : List (String × String)} {v : String}
    (h : lookupA previous v = none) (fuel : Nat) (hf : 1 ≤ fuel) :
    reconstructPath previous fuel v [] = [v] := by
  rcases fuel with _ | f
  · omega
  · simp [reconstructPath, h]


/-! ## The Dijkstra loop invariant -/

/-- Popping the minimum of the sorted queue at an unvisited node: its queue
distance is exactly its tentative distance, and (with all edges of visited
nodes relaxed) that distance is optimal among all walks from the start. -/
theorem pop_min_spec {m : MapData} {startId : String} {s : DijkstraState}
    {cur : DijkstraQueueItem} {rest : List DijkstraQueueItem}
    (hinv : DInv m startId s) (hrel : RelaxedAll m s)
    (hsort : sortByDistance s.queue = cur :: rest)
    (hnv : cur.nodeId ∉ s.visited) :
    lookupA s.distances cur.nodeId = some cur.distance ∧
      ∀ c, HasWalk m startId cur.nodeId c → cur.distance ≤ c := by
  have hcurmem : cur ∈ s.queue := by
    rw [← mem_sortByDistance, hsort]; simp
  obtain ⟨d, hlook, hle, hwalk⟩ := hinv.queueSound cur hcurmem
  have hfresh := hinv.fresh cur.nodeId d hnv hlook
  have hfreshs : (⟨cur.nodeId, d⟩ : DijkstraQueueItem) ∈ cur :: rest := by
    rw [← hsort, mem_sortByDistance]; exact hfresh
  have hdeq : d = cur.distance := by
    rcases List.mem_cons.mp hfreshs with h | h
    · exact congrArg DijkstraQueueItem.distance h
    · have := sortByDistance_head_min s.queue cur rest hsort _ h
      simp only at this
      omega
  subst hdeq
  refine ⟨hlook, ?_⟩
  intro c hc
  obtain ⟨l, hl⟩ := hc
  obtain ⟨u, y, c1, w2, c3, hu, hy, hwu, hstep, heq⟩ :=
    walk_crossing hl s.visited hinv.startMem hnv
  obtain ⟨du, hdu, hopt⟩ := hinv.visitedDist u hu
  obtain ⟨e, hemem, het, hew⟩ := hstep
  rcases hrel u hu e hemem with hvis | ⟨du2, d2, hdu2, hd2, hle2⟩
  · rw [het] at hvis; exact absurd hvis hy
  · have hdu2eq : du2 = du := by
      rw [hdu] at hdu2
      exact (Option.some_inj.mp hdu2).symm
    rw [hdu2eq] at hle2
    rw [het] at hd2
    have hyfresh := hinv.fresh y d2 hy hd2
    have hymem : (⟨y, d2⟩ : DijkstraQueueItem) ∈ cur :: rest := by
      rw [← hsort, mem_sortByDistance]; exact hyfresh
    have hcurle : cur.distance ≤ d2 := by
      rcases List.mem_cons.mp hymem with h | h
      · have : cur.distance = d2 := (congrArg DijkstraQueueItem.distance h).symm
        omega
      · exact sortByDistance_head_min s.queue cur rest hsort _ h
    have hduc1 : du ≤ c1 := hopt c1 hwu
    rw [hew] at hle2
    omega

/-- One relaxation update preserves the invariant. -/
theorem DInv.update {m : MapData} {startId : String} {s : DijkstraState}
    (hinv : DInv m startId s) (cur : DijkstraQueueItem) (t : String) (w : Nat)
    (hv : cur.nodeId ∈ s.visited)
    (hd : lookupA s.distances cur.nodeId = some cur.distance)
    (ht : t ∉ s.visited)
    (hstep : EdgeStep m cur.nodeId t w)
    (hbest : ∀ best, lookupA s.distances t = some best → cur.distance + w < best) :
    DInv m startId
      ⟨setA s.distances t (cur.distance + w), setA s.previous t cur.nodeId,
        s.visited, s.queue ++ [⟨t, cur.distance + w⟩]⟩ := by
  have htc : t ≠ cur.nodeId := fun h => ht (h ▸ hv)
  have hts : t ≠ startId := fun h => ht (h ▸ hinv.startMem)
  have hwalkcur : HasWalk m startId cur.nodeId cur.distance :=
    hinv.sound cur.nodeId cur.distance hd
  have hwalkt : HasWalk m startId t (cur.distance + w) := hwalkcur.snoc_walk hstep
  refine ⟨hinv.startMem, ?_, ?_, ?_, ?_, ?_, ?_, ?_, ?_⟩
  · rw [lookupA_setA_ne _ _ _ _ hts]; exact hinv.startDist
  · rw [lookupA_setA_ne _ _ _ _ hts]; exact hinv.startPrev
  · intro v d hl
    by_cases hvt : v = t
    · subst hvt
      rw [lookupA_setA_self] at hl
      cases hl
      exact hwalkt
    · rw [lookupA_setA_ne _ _ _ _ (fun h => hvt h.symm)] at hl
      exact hinv.sound v d hl
  · intro it hit
    rcases List.mem_append.mp hit with hold | hnew
    · obtain ⟨d, hlook, hle, hwalk⟩ := hinv.queueSound it hold
      by_cases hvt : it.nodeId = t
      · rw [hvt] at hlook ⊢
        have := hbest d hlook
        refine ⟨cur.distance + w, lookupA_setA_self _ _ _, by omega, ?_⟩
        rw [← hvt]; exact hwalk
      · rw [lookupA_setA_ne _ _ _ _ (fun h => hvt h.symm)]
        exact ⟨d, hlook, hle, hwalk⟩
    · simp only [List.mem_singleton] at hnew
      subst hnew
      exact ⟨cur.distance + w, lookupA_setA_self _ _ _, le_refl _, hwalkt⟩
  · intro v d hnvis hl
    by_cases hvt : v = t
    · subst hvt
      rw [lookupA_setA_self] at hl
      cases hl
      simp
    · rw [lookupA_setA_ne _ _ _ _ (fun h => hvt h.symm)] at hl
      exact List.mem_append_left _ (hinv.fresh v d hnvis hl)
  · intro u hu
    obtain ⟨du, hdu, hopt⟩ := hinv.visitedDist u hu
    have hut : u ≠ t := fun h => ht (h ▸ hu)
    rw [lookupA_setA_ne _ _ _ _ (Ne.symm hut)]
    exact ⟨du, hdu, hopt⟩
  · intro v d hl
    by_cases hvt : v = t
    · subst hvt
      rw [lookupA_setA_self] at hl
      cases hl
      obtain ⟨l, hpc, hwl, hnd, helem⟩ := hinv.chain cur.nodeId cur.distance hd
      have hlvis : ∀ x ∈ l, x ∈ s.visited := by
        intro x hx
        rcases helem x hx with h | rfl
        · exact h
        · exact hv
      have htl : v ∉ l := fun h => ht (hlvis v h)
      refine ⟨l ++ [v], ?_, hwl.snoc_step hstep, ?_, ?_⟩
      · refine PrevChain.step (lookupA_setA_self _ _ _) (hpc.congr ?_)
        intro x hx
        exact lookupA_setA_ne _ _ _ _ (fun h => htl (h ▸ hx))
      · rw [List.nodup_append]
        exact ⟨hnd, List.nodup_singleton v, by simpa using htl⟩
      · intro x hx
        rcases List.mem_append.mp hx with h | h
        · exact Or.inl (hlvis x h)
        · simp only [List.mem_singleton] at h
          exact Or.inr h
    · rw [lookupA_setA_ne _ _ _ _ (fun h => hvt h.symm)] at hl
      obtain ⟨l, hpc, hwl, hnd, helem⟩ := hinv.chain v d hl
      have htl : t ∉ l := by
        intro h
        rcases helem t h with h2 | h2
        · exact ht h2
        · exact hvt h2.symm
      refine ⟨l, hpc.congr ?_, hwl, hnd, helem⟩
      intro x hx
      exact lookupA_setA_ne _ _ _ _ (fun h => htl (h ▸ hx))
  · intro v u hl
    by_cases hvt : v = t
    · subst hvt
      exact ⟨cur.distance + w, lookupA_setA_self _ _ _⟩
    · rw [lookupA_setA_ne _ _ _ _ (fun h => hvt h.symm)] at hl ⊢
      obtain ⟨d, hdd⟩ := hinv.prevDom v u hl
      exact ⟨d, hdd⟩


/-- Full specification of `relaxEdges`: it preserves the invariant, leaves
`visited` and the distances of visited nodes unchanged, only improves
tentative distances, only extends the queue, and relaxes every listed
edge of the current node. -/
theorem relaxEdges_spec (m : MapData) (startId : String)
    (current : DijkstraQueueItem) :
    ∀ (es : List Edge) (s : DijkstraState), DInv m startId s →
    current.nodeId ∈ s.visited →
    lookupA s.distances current.nodeId = some current.distance →
    (∀ e ∈ es, e ∈ lookupD m.adjacencyList current.nodeId) →
    DInv m startId (relaxEdges current es s) ∧
      (relaxEdges current es s).visited = s.visited ∧
      (∀ u, u ∈ s.visited →
        lookupA (relaxEdges current es s).distances u = lookupA s.distances u) ∧
      (∀ x d, lookupA s.distances x = some d →
        ∃ d2, lookupA (relaxEdges current es s).distances x = some d2 ∧ d2 ≤ d) ∧
      RelaxedFor (relaxEdges current es s) current.nodeId es ∧
      (∀ it ∈ s.queue, it ∈ (relaxEdges current es s).queue) := by
  intro es
  induction es with
  | nil =>
      intro s hinv hv hd _
      refine ⟨hinv, rfl, fun u _ => rfl, fun x d h => ⟨d, h, le_refl _⟩, ?_, fun it h => h⟩
      intro e he
      cases he
  | cons e rest ih =>
      intro s hinv hv hd hes
      have hestep : e ∈ lookupD m.adjacencyList current.nodeId := hes e (by simp)
      have hrest : ∀ e2 ∈ rest, e2 ∈ lookupD m.adjacencyList current.nodeId :=
        fun e2 h2 => hes e2 (by simp [h2])
      by_cases hvis : e.targetNodeId ∈ s.visited
      · rw [relaxEdges_cons_vis current e rest s hvis]
        obtain ⟨hinv2, hvs, hfroz, hmono, hrelax, hqext⟩ := ih s hinv hv hd hrest
        refine ⟨hinv2, hvs, hfroz, hmono, ?_, hqext⟩
        intro e2 he2
        rcases List.mem_cons.mp he2 with rfl | he2
        · exact Or.inl (hvs ▸ hvis)
        · exact hrelax e2 he2
      · have hstep : EdgeStep m current.nodeId e.targetNodeId e.weight :=
          ⟨e, hestep, rfl, rfl⟩
        have htc : e.targetNodeId ≠ current.nodeId := fun h => hvis (h ▸ hv)
        have key : (∀ b, lookupA s.distances e.targetNodeId = some b →
              current.distance + e.weight < b) →
            DInv m startId (relaxEdges current rest (relaxUpdate current e s)) ∧
            (relaxEdges current rest (relaxUpdate current e s)).visited = s.visited ∧
            (∀ u, u ∈ s.visited →
              lookupA (relaxEdges current rest (relaxUpdate current e s)).distances u =
                lookupA s.distances u) ∧
            (∀ x d, lookupA s.distances x = some d →
              ∃ d2, lookupA (relaxEdges current rest
                (relaxUpdate current e s)).distances x = some d2 ∧ d2 ≤ d) ∧
            RelaxedFor (relaxEdges current rest (relaxUpdate current e s))
              current.nodeId (e :: rest) ∧
            (∀ it ∈ s.queue,
              it ∈ (relaxEdges current rest (relaxUpdate current e s)).queue) := by
          intro hbest
          have hinv2 : DInv m startId (relaxUpdate current e s) :=
            hinv.update current e.targetNodeId e.weight hv hd hvis hstep hbest
          have hd2 : lookupA (relaxUpdate current e s).distances current.nodeId =
              some current.distance := by
            show lookupA (setA s.distances e.targetNodeId
              (current.distance + e.weight)) current.nodeId = some current.distance
            rw [lookupA_setA_ne _ _ _ _ htc]
            exact hd
          have hv2 : current.nodeId ∈ (relaxUpdate current e s).visited := hv
          obtain ⟨hinv3, hvs, hfroz, hmono, hrelax, hqext⟩ :=
            ih (relaxUpdate current e s) hinv2 hv2 hd2 hrest
          have hts : lookupA (relaxUpdate current e s).distances e.targetNodeId =
              some (current.distance + e.weight) := by
            show lookupA (setA s.distances e.targetNodeId
              (current.distance + e.weight)) e.targetNodeId = _
            exact lookupA_setA_self _ _ _
          refine ⟨hinv3, hvs, ?_, ?_, ?_, ?_⟩
          · intro u hu
            rw [hfroz u hu]
            show lookupA (setA s.distances e.targetNodeId
              (current.distance + e.weight)) u = lookupA s.distances u
            exact lookupA_setA_ne _ _ _ _ (fun h => hvis (h ▸ hu))
          · intro x d hx
            by_cases hxe : x = e.targetNodeId
            · subst hxe
              have hlt := hbest d hx
              obtain ⟨d2, hd2e, hled⟩ := hmono e.targetNodeId _ hts
              exact ⟨d2, hd2e, by omega⟩
            · have hx2 : lookupA (relaxUpdate current e s).distances x = some d := by
                show lookupA (setA s.distances e.targetNodeId
                  (current.distance + e.weight)) x = some d
                rw [lookupA_setA_ne _ _ _ _ (fun h => hxe h.symm)]
                exact hx
              exact hmono x d hx2
          · intro e2 he2
            rcases List.mem_cons.mp he2 with rfl | he2
            · right
              obtain ⟨d2, hd2e, hled⟩ := hmono e2.targetNodeId _ hts
              refine ⟨current.distance, d2, ?_, hd2e, by omega⟩
              rw [hfroz current.nodeId hv2]
              exact hd2
            · exact hrelax e2 he2
          · intro it hit
            refine hqext it ?_
            show it ∈ s.queue ++ [⟨e.targetNodeId, current.distance + e.weight⟩]
            exact List.mem_append_left _ hit
        rcases hlk : lookupA s.distances e.targetNodeId with _ | best
        · rw [relaxEdges_cons_none current e rest s hvis hlk]
          exact key (fun b hb => by rw [hlk] at hb; cases hb)
        · by_cases himp : current.distance + e.weight < best
          · rw [relaxEdges_cons_lt current e rest s hvis hlk himp]
            refine key (fun b hb => ?_)
            rw [hlk] at hb
            cases hb
            exact himp
          · rw [relaxEdges_cons_ge current e rest s hvis hlk himp]
            obtain ⟨hinv2, hvs, hfroz, hmono, hrelax, hqext⟩ := ih s hinv hv hd hrest
            refine ⟨hinv2, hvs, hfroz, hmono, ?_, hqext⟩
            intro e2 he2
            rcases List.mem_cons.mp he2 with rfl | he2
            · right
              obtain ⟨d2, hd2e, hled⟩ := hmono e2.targetNodeId best hlk
              refine ⟨current.distance, d2, ?_, hd2e, by omega⟩
              rw [hfroz current.nodeId hv]
              exact hd
            · exact hrelax e2 he2


/-! ## The Dijkstra main loop -/

theorem dijkstraLoop_succ_nil (m : MapData) (endId : String) (f : Nat)
    (s : DijkstraState) (hsort : sortByDistance s.queue = []) :
    dijkstraLoop m endId (f + 1) s = s := by
  simp only [dijkstraLoop, hsort]

theorem dijkstraLoop_succ_vis (m : MapData) (endId : String) (f : Nat)
    (s : DijkstraState) (cur : DijkstraQueueItem) (rest : List DijkstraQueueItem)
    (hsort : sortByDistance s.queue = cur :: rest) (hcv : cur.nodeId ∈ s.visited) :
    dijkstraLoop m endId (f + 1) s =
      dijkstraLoop m endId f { s with queue := rest } := by
  simp only [dijkstraLoop, hsort, if_pos hcv]

theorem dijkstraLoop_succ_stop (m : MapData) (endId : String) (f : Nat)
    (s : DijkstraState) (cur : DijkstraQueueItem) (rest : List DijkstraQueueItem)
    (hsort : sortByDistance s.queue = cur :: rest) (hcv : cur.nodeId ∉ s.visited)
    (hend : cur.nodeId = endId) :
    dijkstraLoop m endId (f + 1) s =
      { s with queue := rest, visited := cur.nodeId :: s.visited } := by
  simp only [dijkstraLoop, hsort, if_neg hcv, if_pos hend]

theorem dijkstraLoop_succ_visit (m : MapData) (endId : String) (f : Nat)
    (s : DijkstraState) (cur : DijkstraQueueItem) (rest : List DijkstraQueueItem)
    (hsort : sortByDistance s.queue = cur :: rest) (hcv : cur.nodeId ∉ s.visited)
    (hend : cur.nodeId ≠ endId) :
    dijkstraLoop m endId (f + 1) s =
      dijkstraLoop m endId f
        (relaxEdges cur (lookupD m.adjacencyList cur.nodeId)
          { s with queue := rest, visited := cur.nodeId :: s.visited }) := by
  simp only [dijkstraLoop, hsort, if_neg hcv, if_neg hend]

/-- Main loop theorem: started from an invariant state with enough fuel,
the loop ends in an invariant state that either visited the destination or
exhausted the queue with all visited nodes relaxed. -/
theorem dijkstraLoop_spec (m : MapData) (startId endId : String) :
    ∀ fuel s, DInv m startId s → RelaxedAll m s → dPhi m s < fuel →
      DInv m startId (dijkstraLoop m endId fuel s) ∧
        (endId ∈ (dijkstraLoop m endId fuel s).visited ∨
          ((dijkstraLoop m endId fuel s).queue = [] ∧
            RelaxedAll m (dijkstraLoop m endId fuel s))) := by
  intro fuel
  induction fuel with
  | zero => intro s _ _ h; exact absurd h (Nat.not_lt_zero _)
  | succ f ih =>
      intro s hinv hrel hphi
      rcases hsort : sortByDistance s.queue with _ | ⟨cur, rest⟩
      · have hq : s.queue = [] := (sortByDistance_eq_nil_iff _).mp hsort
        rw [dijkstraLoop_succ_nil m endId f s hsort]
        exact ⟨hinv, Or.inr ⟨hq, hrel⟩⟩
      · have hqlen : s.queue.length = rest.length + 1 := by
          have := sortByDistance_length s.queue
          rw [hsort] at this
          simpa using this.symm
        have hmemq : ∀ it ∈ rest, it ∈ s.queue := by
          intro it hit
          rw [← mem_sortByDistance, hsort]
          simp [hit]
        by_cases hcv : cur.nodeId ∈ s.visited
        · rw [dijkstraLoop_succ_vis m endId f s cur rest hsort hcv]
          have hinv1 : DInv m startId { s with queue := rest } := by
            refine ⟨hinv.startMem, hinv.startDist, hinv.startPrev, hinv.sound, ?_, ?_,
              hinv.visitedDist, hinv.chain, hinv.prevDom⟩
            · intro it hit
              exact hinv.queueSound it (hmemq it hit)
            · intro v d hnv hl
              have := hinv.fresh v d hnv hl
              rw [← mem_sortByDistance, hsort] at this
              rcases List.mem_cons.mp this with h | h
              · have hveq : v = cur.nodeId := congrArg DijkstraQueueItem.nodeId h
                rw [hveq] at hnv
                exact absurd hcv hnv
              · exact h
          have hphi1 : dPhi m { s with queue := rest } < f := by
            simp only [dPhi] at hphi ⊢
            omega
          exact ih { s with queue := rest } hinv1 hrel hphi1
        · obtain ⟨hcd, hopt⟩ := pop_min_spec hinv hrel hsort hcv
          have hinv2 : DInv m startId
              { s with queue := rest, visited := cur.nodeId :: s.visited } := by
            refine ⟨List.mem_cons_of_mem _ hinv.startMem, hinv.startDist,
              hinv.startPrev, hinv.sound, ?_, ?_, ?_, ?_, hinv.prevDom⟩
            · intro it hit
              exact hinv.queueSound it (hmemq it hit)
            · intro v d hnv hl
              have hnv2 : v ∉ s.visited := fun h => hnv (List.mem_cons_of_mem _ h)
              have hne : v ≠ cur.nodeId := fun h => hnv (h ▸ List.mem_cons_self _ _)
              have := hinv.fresh v d hnv2 hl
              rw [← mem_sortByDistance, hsort] at this
              rcases List.mem_cons.mp this with h | h
              · exact absurd (congrArg DijkstraQueueItem.nodeId h) hne
              · exact h
            · intro u hu
              rcases List.mem_cons.mp hu with rfl | hu
              · exact ⟨cur.distance, hcd, hopt⟩
              · exact hinv.visitedDist u hu
            · intro v d hl
              obtain ⟨l, hpc, hwl, hnd, helem⟩ := hinv.chain v d hl
              refine ⟨l, hpc, hwl, hnd, ?_⟩
              intro x hx
              rcases helem x hx with h | h
              · exact Or.inl (List.mem_cons_of_mem _ h)
              · exact Or.inr h
          by_cases hend : cur.nodeId = endId
          · rw [dijkstraLoop_succ_stop m endId f s cur rest hsort hcv hend]
            refine ⟨hinv2, Or.inl ?_⟩
            rw [← hend]
            exact List.mem_cons_self _ _
          · rw [dijkstraLoop_succ_visit m endId f s cur rest hsort hcv hend]
            set s2 : DijkstraState :=
              { s with queue := rest, visited := cur.nodeId :: s.visited } with hs2
            set es : List Edge := lookupD m.adjacencyList cur.nodeId with hes
            obtain ⟨hinv3, hvs, hfroz, hmono, hrelax, hqext⟩ :=
              relaxEdges_spec m startId cur es s2 hinv2
                (List.mem_cons_self _ _) hcd (fun e he => he)
            have hrel3 : RelaxedAll m (relaxEdges cur es s2) := by
              intro u hu
              rw [hvs] at hu
              rcases List.mem_cons.mp hu with rfl | hu0
              · exact hrelax
              · intro e2 he2
                rcases hrel u hu0 e2 he2 with hv2 | ⟨du, d2, hdu, hd2, hle⟩
                · exact Or.inl (by rw [hvs]; exact List.mem_cons_of_mem _ hv2)
                · right
                  obtain ⟨d2b, hd2b, hleb⟩ := hmono e2.targetNodeId d2 hd2
                  refine ⟨du, d2b, ?_, hd2b, by omega⟩
                  rw [hfroz u (List.mem_cons_of_mem _ hu0)]
                  exact hdu
            have hphi3 : dPhi m (relaxEdges cur es s2) < f := by
              have h1 : (relaxEdges cur es s2).queue.length ≤
                  rest.length + es.length := by
                have := relaxEdges_queue_length cur es s2
                simpa using this
              have h2 : remSize m.adjacencyList (cur.nodeId :: s.visited) + es.length ≤
                  remSize m.adjacencyList s.visited :=
                remSize_visit m.adjacencyList cur.nodeId s.visited hcv
              have h3 : (relaxEdges cur es s2).visited = cur.nodeId :: s.visited := hvs
              simp only [dPhi, h3] at *
              omega
            exact ih (relaxEdges cur es s2) hinv3 hrel3 hphi3


/-! ## End-to-end properties of the local search -/

theorem dijkstraRun_spec (m : MapData) (startId endId : String)
    (hne : startId ≠ endId) :
    DInv m startId (dijkstraRun m startId endId) ∧
      (endId ∈ (dijkstraRun m startId endId).visited ∨
        ((dijkstraRun m startId endId).queue = [] ∧
          RelaxedAll m (dijkstraRun m startId endId))) := by
  have hfuel : dijkstraFuel m = (1 + adjSize m.adjacencyList) + 1 := by
    rw [dijkstraFuel]; omega
  set s2i : DijkstraState := ⟨[(startId, 0)], [], [startId], []⟩ with hs2i
  have hstep1 : dijkstraRun m startId endId =
      dijkstraLoop m endId (1 + adjSize m.adjacencyList)
        (relaxEdges ⟨startId, 0⟩ (lookupD m.adjacencyList startId) s2i) := by
    rw [dijkstraRun, hfuel]
    exact dijkstraLoop_succ_visit m endId _ _ ⟨startId, 0⟩ [] rfl (by simp) hne
  have hlook0 : lookupA s2i.distances startId = some 0 := by
    simp [hs2i, lookupA]
  have hinv0 : DInv m startId s2i := by
    refine ⟨by simp [hs2i], hlook0, rfl, ?_, ?_, ?_, ?_, ?_, ?_⟩
    · intro v d h
      simp only [hs2i, lookupA] at h
      by_cases hv : startId = v
      · subst hv
        simp only [if_pos rfl] at h
        cases h
        exact ⟨[startId], WalkList.nil startId⟩
      · rw [if_neg hv] at h
        cases h
    · intro it hit
      cases hit
    · intro v d hnv h
      simp only [hs2i, lookupA] at h
      by_cases hv : startId = v
      · exact absurd (hv ▸ List.mem_cons_self _ _) hnv
      · rw [if_neg hv] at h
        cases h
    · intro u hu
      rcases List.mem_cons.mp hu with rfl | hu
      · exact ⟨0, hlook0, fun c _ => Nat.zero_le c⟩
      · cases hu
    · intro v d h
      simp only [hs2i, lookupA] at h
      by_cases hv : startId = v
      · subst hv
        simp only [if_pos rfl] at h
        cases h
        exact ⟨[startId], PrevChain.base rfl, WalkList.nil startId,
          List.nodup_singleton _, fun x hx => Or.inl (by simpa using hx)⟩
      · rw [if_neg hv] at h
        cases h
    · intro v u h
      cases h
  obtain ⟨hinv1, _, _, _, hrelax1, _⟩ :=
    relaxEdges_spec m startId ⟨startId, 0⟩ (lookupD m.adjacencyList startId) s2i
      hinv0 (List.mem_cons_self _ _) hlook0 (fun e he => he)
  have hrel1 : RelaxedAll m
      (relaxEdges ⟨startId, 0⟩ (lookupD m.adjacencyList startId) s2i) := by
    intro u hu
    rw [relaxEdges_visited] at hu
    rcases List.mem_cons.mp hu with rfl | hu
    · exact hrelax1
    · cases hu
  have hphi1 : dPhi m (relaxEdges ⟨startId, 0⟩ (lookupD m.adjacencyList startId) s2i) <
      1 + adjSize m.adjacencyList := by
    have h1 : (relaxEdges ⟨startId, 0⟩ (lookupD m.adjacencyList startId)
        s2i).queue.length ≤ (lookupD m.adjacencyList startId).length := by
      have := relaxEdges_queue_length ⟨startId, 0⟩ (lookupD m.adjacencyList startId) s2i
      simpa [hs2i] using this
    have h2 := remSize_visit m.adjacencyList startId [] (by simp)
    have h3 : (relaxEdges ⟨startId, 0⟩ (lookupD m.adjacencyList startId)
        s2i).visited = [startId] := by
      rw [relaxEdges_visited]
    have h4 : remSize m.adjacencyList ([] : List String) = adjSize m.adjacencyList := by
      rw [remSize_nil_visited]; rfl
    simp only [dPhi, h3]
    omega
  rw [hstep1]
  exact dijkstraLoop_spec m startId endId (1 + adjSize m.adjacencyList) _ hinv1 hrel1 hphi1

/-- If the destination is reachable, the search visits it. -/
theorem dijkstraRun_end_visited (m : MapData) (startId endId : String)
    (hne : startId ≠ endId) (hreach : ReachableIn m startId endId) :
    endId ∈ (dijkstraRun m startId endId).visited := by
  obtain ⟨hinv, hfin⟩ := dijkstraRun_spec m startId endId hne
  rcases hfin with h | ⟨hq, hrel⟩
  · exact h
  · by_contra hnv
    obtain ⟨c, l, hl⟩ := hreach
    obtain ⟨u, y, c1, w2, c3, hu, hy, hwu, hstep, heq⟩ :=
      walk_crossing hl _ hinv.startMem hnv
    obtain ⟨e, hemem, het, hew⟩ := hstep
    rcases hrel u hu e hemem with hvis | ⟨du, d2, hdu, hd2, hle⟩
    · rw [het] at hvis
      exact hy hvis
    · rw [het] at hd2
      have := hinv.fresh y d2 hy hd2
      rw [hq] at this
      cases this

/-- `findLocalPath` on a reachable pair returns a walk of minimal total
weight. -/
theorem findLocalPath_min (m : MapData) (startId endId : String)
    (hs : startId ∈ m.nodes.map (fun n => n.id))
    (he : endId ∈ m.nodes.map (fun n => n.id))
    (hreach : ReachableIn m startId endId) :
    ∃ l d, findLocalPath m startId endId = .ok l ∧
      WalkList m startId endId l d ∧ ∀ c, HasWalk m startId endId c → d ≤ c := by
  by_cases hne : startId = endId
  · subst hne
    exact ⟨[startId], 0, by rw [findLocalPath, if_pos rfl], WalkList.nil startId,
      fun c _ => Nat.zero_le c⟩
  · obtain ⟨hinv, _⟩ := dijkstraRun_spec m startId endId hne
    have hv := dijkstraRun_end_visited m startId endId hne hreach
    obtain ⟨de, hde, hopt⟩ := hinv.visitedDist endId hv
    obtain ⟨l, hpc, hwl, hnd, _⟩ := hinv.chain endId de hde
    have hlen : l.length ≤ (dijkstraRun m startId endId).previous.length + 1 :=
      hpc.length_le hnd
    have hrec : reconstructPath (dijkstraRun m startId endId).previous
        ((dijkstraRun m startId endId).previous.length + 1) endId [] = l := by
      simpa using reconstructPath_eq_chain hpc _ [] hlen
    have hhead : l.head? = some startId := hwl.head_start
    refine ⟨l, de, ?_, hwl, hopt⟩
    simp only [findLocalPath, if_neg hne, if_neg (not_not_intro hs),
      if_neg (not_not_intro he)]
    rw [show dijkstraLoop m endId (dijkstraFuel m)
        ⟨[(startId, 0)], [], [], [⟨startId, 0⟩]⟩ = dijkstraRun m startId endId from rfl]
    rw [hrec, if_pos hhead]

/-- `findLocalPath` on an unreachable pair of distinct existing nodes
reports `NO_PATH`. -/
theorem findLocalPath_no_path (m : MapData) (startId endId : String)
    (hne : startId ≠ endId)
    (hs : startId ∈ m.nodes.map (fun n => n.id))
    (he : endId ∈ m.nodes.map (fun n => n.id))
    (hun : ¬ ReachableIn m startId endId) :
    findLocalPath m startId endId =
      .error ⟨noPathMsg startId endId m.id, .NO_PATH⟩ := by
  obtain ⟨hinv, _⟩ := dijkstraRun_spec m startId endId hne
  have hdist : lookupA (dijkstraRun m startId endId).distances endId = none := by
    rcases h : lookupA (dijkstraRun m startId endId).distances endId with _ | d
    · rfl
    · exact absurd ⟨d, hinv.sound endId d h⟩ hun
  have hprev : lookupA (dijkstraRun m startId endId).previous endId = none := by
    rcases h : lookupA (dijkstraRun m startId endId).previous endId with _ | u
    · rfl
    · obtain ⟨d, hd⟩ := hinv.prevDom endId u h
      rw [hdist] at hd
      cases hd
  have hrec := reconstructPath_of_none hprev
    ((dijkstraRun m startId endId).previous.length + 1) (by omega)
  simp only [findLocalPath, if_neg hne, if_neg (not_not_intro hs),
    if_neg (not_not_intro he)]
  rw [show dijkstraLoop m endId (dijkstraFuel m)
      ⟨[(startId, 0)], [], [], [⟨startId, 0⟩]⟩ = dijkstraRun m startId endId from rfl]
  rw [hrec, if_neg (by simp [Ne.symm hne])]


theorem findLocalPath_same (m : MapData) (n : String) :
    findLocalPath m n n = .ok [n] := by
  rw [findLocalPath, if_pos rfl]

theorem findLocalPath_start_missing (m : MapData) (startId endId : String)
    (hne : startId ≠ endId) (hs : startId ∉ m.nodes.map (fun n => n.id)) :
    findLocalPath m startId endId =
      .error ⟨nodeNotFoundMsg "Start" startId m.id, .NODE_NOT_FOUND⟩ := by
  simp only [findLocalPath, if_neg hne, if_pos hs]

theorem findLocalPath_end_missing (m : MapData) (startId endId : String)
    (hne : startId ≠ endId) (hs : startId ∈ m.nodes.map (fun n => n.id))
    (he : endId ∉ m.nodes.map (fun n => n.id)) :
    findLocalPath m startId endId =
      .error ⟨nodeNotFoundMsg "End" endId m.id, .NODE_NOT_FOUND⟩ := by
  simp only [findLocalPath, if_neg hne, if_neg (not_not_intro hs), if_pos he]

/-- Every successful `findLocalPath` result is a non-empty list starting
at the requested start node and ending at the requested end node. -/
theorem findLocalPath_ok_shape (m : MapData) (startId endId : String)
    (l : List String) (h : findLocalPath m startId endId = .ok l) :
    l.head? = some startId ∧ l.getLast? = some endId ∧ l ≠ [] := by
  by_cases hne : startId = endId
  · subst hne
    rw [findLocalPath_same] at h
    cases h
    exact ⟨rfl, rfl, by simp⟩
  · by_cases hs : startId ∉ m.nodes.map (fun n => n.id)
    · rw [findLocalPath_start_missing m startId endId hne hs] at h
      cases h
    · rw [not_not] at hs
      by_cases he : endId ∉ m.nodes.map (fun n => n.id)
      · rw [findLocalPath_end_missing m startId endId hne hs he] at h
        cases h
      · rw [not_not] at he
        simp only [findLocalPath, if_neg hne, if_neg (not_not_intro hs),
          if_neg (not_not_intro he)] at h
        rw [show dijkstraLoop m endId (dijkstraFuel m)
            ⟨[(startId, 0)], [], [], [⟨startId, 0⟩]⟩ =
            dijkstraRun m startId endId from rfl] at h
        have hlast := reconstructPath_getLast (dijkstraRun m startId endId).previous
          ((dijkstraRun m startId endId).previous.length + 1) endId []
          (Or.inl (by omega))
        set p := reconstructPath (dijkstraRun m startId endId).previous
          ((dijkstraRun m startId endId).previous.length + 1) endId [] with hp
        by_cases hh : p.head? = some startId
        · rw [if_pos hh] at h
          injection h with h2
          subst h2
          refine ⟨hh, by simpa using hlast, ?_⟩
          intro hnil
          rw [hnil] at hh
          cases hh
        · rw [if_neg hh] at h
          cases h

/-- Successful results occur exactly on reachable pairs of existing nodes
(or equal ids). -/
theorem findLocalPath_ok_iff (m : MapData) (startId endId : String)
    (hne : startId ≠ endId) :
    (∃ l, findLocalPath m startId endId = .ok l) ↔
      (startId ∈ m.nodes.map (fun n => n.id) ∧ endId ∈ m.nodes.map (fun n => n.id) ∧
        ReachableIn m startId endId) := by
  constructor
  · intro ⟨l, h⟩
    by_cases hs : startId ∉ m.nodes.map (fun n => n.id)
    · rw [findLocalPath_start_missing m startId endId hne hs] at h
      cases h
    · rw [not_not] at hs
      by_cases he : endId ∉ m.nodes.map (fun n => n.id)
      · rw [findLocalPath_end_missing m startId endId hne hs he] at h
        cases h
      · rw [not_not] at he
        refine ⟨hs, he, ?_⟩
        by_contra hun
        rw [findLocalPath_no_path m startId endId hne hs he hun] at h
        cases h
  · intro ⟨hs, he, hreach⟩
    obtain ⟨l, d, h, _, _⟩ := findLocalPath_min m startId endId hs he hreach
    exact ⟨l, h⟩


/-! ## Claims about the local router -/

/-- C1: for every map and every pair of node ids that both exist in the
map and are joined by some walk in its adjacency structure (edge weights
are non-negative by construction of the `Nat` weight model),
`findLocalPath` succeeds with an ordered node sequence that begins at the
start id, ends at the end id, follows edges of the map, and whose total
edge weight is the minimum over all start-to-end walks of that map. -/
theorem C1_findLocalPath_optimal (m : MapData) (startId endId : String)
    (hs : startId ∈ m.nodes.map (fun n => n.id))
    (he : endId ∈ m.nodes.map (fun n => n.id))
    (hreach : ReachableIn m startId endId) :
    ∃ l d, findLocalPath m startId endId = .ok l ∧
      l.head? = some startId ∧ l.getLast? = some endId ∧
      WalkList m startId endId l d ∧
      ∀ c, HasWalk m startId endId c → d ≤ c := by
  obtain ⟨l, d, hok, hwl, hopt⟩ := findLocalPath_min m startId endId hs he hreach
  exact ⟨l, d, hok, hwl.head_start, hwl.getLast_end, hwl, hopt⟩

theorem C1_findLocalPath_optimal_witness :
    (("a" : String) ∈ sampleMapA.nodes.map (fun n => n.id) ∧
      ("c" : String) ∈ sampleMapA.nodes.map (fun n => n.id) ∧
      ReachableIn sampleMapA "a" "c") ∧
    (∃ l d, findLocalPath sampleMapA "a" "c" = .ok l ∧
      l.head? = some "a" ∧ l.getLast? = some "c" ∧
      WalkList sampleMapA "a" "c" l d ∧
      ∀ c, HasWalk sampleMapA "a" "c" c → d ≤ c) := by
  have h1 : ("a" : String) ∈ sampleMapA.nodes.map (fun n => n.id) := by decide
  have h2 : ("c" : String) ∈ sampleMapA.nodes.map (fun n => n.id) := by decide
  have hstep : EdgeStep sampleMapA "a" "c" 10 := ⟨⟨"c", 10⟩, by decide, rfl, rfl⟩
  have hreach : ReachableIn sampleMapA "a" "c" :=
    ⟨10 + 0, ["a", "c"], WalkList.cons hstep (WalkList.nil "c")⟩
  exact ⟨⟨h1, h2, hreach⟩, C1_findLocalPath_optimal sampleMapA "a" "c" h1 h2 hreach⟩

/-- C9: for distinct node ids, `findLocalPath` fails with `NODE_NOT_FOUND`
(the message naming the offending id and the map) exactly when the start
or the end id is missing from the node set; fails with `NO_PATH` (the
message naming start, end and map) exactly when both ids are present but
the end is unreachable from the start; and succeeds in all remaining
cases. -/
theorem C9_findLocalPath_errors (m : MapData) (startId endId : String)
    (hne : startId ≠ endId) :
    ((findLocalPath m startId endId =
        .error ⟨nodeNotFoundMsg "Start" startId m.id, .NODE_NOT_FOUND⟩ ∨
      findLocalPath m startId endId =
        .error ⟨nodeNotFoundMsg "End" endId m.id, .NODE_NOT_FOUND⟩) ↔
      (startId ∉ m.nodes.map (fun n => n.id) ∨
        endId ∉ m.nodes.map (fun n => n.id))) ∧
    ((findLocalPath m startId endId =
        .error ⟨noPathMsg startId endId m.id, .NO_PATH⟩) ↔
      (startId ∈ m.nodes.map (fun n => n.id) ∧ endId ∈ m.nodes.map (fun n => n.id) ∧
        ¬ ReachableIn m startId endId)) ∧
    ((∃ l, findLocalPath m startId endId = .ok l) ↔
      (startId ∈ m.nodes.map (fun n => n.id) ∧ endId ∈ m.nodes.map (fun n => n.id) ∧
        ReachableIn m startId endId)) := by
  by_cases hs : startId ∈ m.nodes.map (fun n => n.id)
  · by_cases he : endId ∈ m.nodes.map (fun n => n.id)
    · by_cases hreach : ReachableIn m startId endId
      · obtain ⟨l, d, hok, _, _⟩ := findLocalPath_min m startId endId hs he hreach
        rw [hok]
        refine ⟨⟨?_, ?_⟩, ⟨?_, ?_⟩, ⟨fun _ => ⟨hs, he, hreach⟩, fun _ => ⟨l, rfl⟩⟩⟩
        · rintro (h | h) <;> cases h
        · rintro (h | h)
          · exact absurd hs h
          · exact absurd he h
        · intro h; cases h
        · rintro ⟨_, _, hn⟩; exact absurd hreach hn
      · rw [findLocalPath_no_path m startId endId hne hs he hreach]
        refine ⟨⟨?_, ?_⟩, ⟨fun _ => ⟨hs, he, hreach⟩, fun _ => rfl⟩, ⟨?_, ?_⟩⟩
        · rintro (h | h) <;>
            (simp only [Except.error.injEq, PathfinderError.mk.injEq] at h
             exact absurd h.2 (by decide))
        · rintro (h | h)
          · exact absurd hs h
          · exact absurd he h
        · rintro ⟨l, h⟩; cases h
        · rintro ⟨_, _, hr⟩; exact absurd hr hreach
    · rw [findLocalPath_end_missing m startId endId hne hs he]
      refine ⟨⟨fun _ => Or.inr he, fun _ => Or.inr rfl⟩, ⟨?_, ?_⟩, ⟨?_, ?_⟩⟩
      · intro h
        simp only [Except.error.injEq, PathfinderError.mk.injEq] at h
        exact absurd h.2 (by decide)
      · rintro ⟨_, h2, _⟩; exact absurd h2 he
      · rintro ⟨l, h⟩; cases h
      · rintro ⟨_, h2, _⟩; exact absurd h2 he
  · rw [findLocalPath_start_missing m startId endId hne hs]
    refine ⟨⟨fun _ => Or.inl hs, fun _ => Or.inl rfl⟩, ⟨?_, ?_⟩, ⟨?_, ?_⟩⟩
    · intro h
      simp only [Except.error.injEq, PathfinderError.mk.injEq] at h
      exact absurd h.2 (by decide)
    · rintro ⟨h1, _, _⟩; exact absurd h1 hs
    · rintro ⟨l, h⟩; cases h
    · rintro ⟨h1, _, _⟩; exact absurd h1 hs

theorem C9_findLocalPath_errors_witness :
    (("a" : String) ≠ "d") ∧
    (((findLocalPath sampleMapA "a" "d" =
        .error ⟨nodeNotFoundMsg "Start" "a" sampleMapA.id, .NODE_NOT_FOUND⟩ ∨
      findLocalPath sampleMapA "a" "d" =
        .error ⟨nodeNotFoundMsg "End" "d" sampleMapA.id, .NODE_NOT_FOUND⟩) ↔
      (("a" : String) ∉ sampleMapA.nodes.map (fun n => n.id) ∨
        ("d" : String) ∉ sampleMapA.nodes.map (fun n => n.id))) ∧
    ((findLocalPath sampleMapA "a" "d" =
        .error ⟨noPathMsg "a" "d" sampleMapA.id, .NO_PATH⟩) ↔
      (("a" : String) ∈ sampleMapA.nodes.map (fun n => n.id) ∧
        ("d" : String) ∈ sampleMapA.nodes.map (fun n => n.id) ∧
        ¬ ReachableIn sampleMapA "a" "d")) ∧
    ((∃ l, findLocalPath sampleMapA "a" "d" = .ok l) ↔
      (("a" : String) ∈ sampleMapA.nodes.map (fun n => n.id) ∧
        ("d" : String) ∈ sampleMapA.nodes.map (fun n => n.id) ∧
        ReachableIn sampleMapA "a" "d"))) :=
  ⟨by decide, C9_findLocalPath_errors sampleMapA "a" "d" (by decide)⟩

/-- C10: the equal-endpoints short-circuits precede every existence
check: `findLocalPath m n n` returns `[n]` and `findMapChain a a maps`
returns `[a]`, with no `NODE_NOT_FOUND` or `MAP_NOT_FOUND` possible, even
when the id is absent from the map or the collection. -/
theorem C10_short_circuit (m : MapData) (n a : String) (maps : List MapData) :
    findLocalPath m n n = .ok [n] ∧ findMapChain a a maps = .ok [a] :=
  ⟨findLocalPath_same m n, by rw [findMapChain, if_pos rfl]⟩


/-! ## The meta-graph builder -/

theorem isGatewayNode_iff (n : Node) :
    isGatewayNode n = true ↔ n.type = NodeType.GATEWAY ∧
      ∃ cfg, n.gatewayConfig = some cfg ∧
        jsTrim cfg.targetMapId ≠ "" ∧ jsTrim cfg.targetNodeId ≠ "" := by
  rcases hcfg : n.gatewayConfig with _ | cfg
  · simp [isGatewayNode, hcfg]
  · simp only [isGatewayNode, hcfg, Bool.and_eq_true, beq_iff_eq, bne_iff_ne,
      Option.some_inj]
    constructor
    · rintro ⟨h1, h2, h3⟩
      exact ⟨h1, cfg, rfl, h2, h3⟩
    · rintro ⟨h1, cfg2, rfl, h2, h3⟩
      exact ⟨h1, h2, h3⟩

theorem lookupA_initMetaGraph (maps : List MapData) (a : String) :
    lookupA (initMetaGraph maps) a =
      if a ∈ maps.map (fun mp => mp.id) then some [] else none := by
  induction maps with
  | nil => simp [initMetaGraph, lookupA]
  | cons m rest ih =>
      rw [initMetaGraph]
      by_cases h : m.id = a
      · subst h
        rw [lookupA_setA_self, if_pos (by simp)]
      · rw [lookupA_setA_ne _ _ _ _ h, ih]
        by_cases h2 : a ∈ rest.map (fun mp => mp.id)
        · rw [if_pos h2, if_pos (by simp [h2])]
        · rw [if_neg h2, if_neg ?_]
          simp only [List.map_cons, List.mem_cons, not_or]
          exact ⟨fun hh => h hh.symm, h2⟩

theorem scanMG_cons_notgw (mapId : String) (n : Node) (rest : List Node)
    (g : List (String × List String)) (h : ¬ isGatewayNode n = true) :
    scanMapGateways mapId (n :: rest) g = scanMapGateways mapId rest g := by
  rw [scanMapGateways, if_neg h]

theorem scanMG_cons_old (mapId : String) (n : Node) (rest : List Node)
    (g : List (String × List String)) {cfg : GatewayConfig}
    (hgw : isGatewayNode n = true) (hcfg : n.gatewayConfig = some cfg)
    (hmem : cfg.targetMapId ∈ lookupD g mapId) :
    scanMapGateways mapId (n :: rest) g = scanMapGateways mapId rest g := by
  rw [scanMapGateways, if_pos hgw, hcfg]
  exact if_pos hmem

theorem scanMG_cons_new (mapId : String) (n : Node) (rest : List Node)
    (g : List (String × List String)) {cfg : GatewayConfig}
    (hgw : isGatewayNode n = true) (hcfg : n.gatewayConfig = some cfg)
    (hmem : cfg.targetMapId ∉ lookupD g mapId) :
    scanMapGateways mapId (n :: rest) g =
      scanMapGateways mapId rest
        (setA g mapId (lookupD g mapId ++ [cfg.targetMapId])) := by
  rw [scanMapGateways, if_pos hgw, hcfg]
  exact if_neg hmem

theorem gatewayNode_cfg {n : Node} (hgw : isGatewayNode n = true) :
    ∃ cfg, n.gatewayConfig = some cfg := by
  rcases hcfg : n.gatewayConfig with _ | cfg
  · rw [isGatewayNode, hcfg] at hgw
    simp at hgw
  · exact ⟨cfg, rfl⟩

theorem scanMapGateways_other (mapId : String) :
    ∀ (nodes : List Node) (g : List (String × List String)) (a : String),
      a ≠ mapId → lookupA (scanMapGateways mapId nodes g) a = lookupA g a := by
  intro nodes
  induction nodes with
  | nil => intro g a _; rfl
  | cons n rest ih =>
      intro g a ha
      by_cases hgw : isGatewayNode n = true
      · obtain ⟨cfg, hcfg⟩ := gatewayNode_cfg hgw
        by_cases hmem : cfg.targetMapId ∈ lookupD g mapId
        · rw [scanMG_cons_old mapId n rest g hgw hcfg hmem]
          exact ih g a ha
        · rw [scanMG_cons_new mapId n rest g hgw hcfg hmem, ih _ a ha]
          exact lookupA_setA_ne _ _ _ _ (fun hh => ha hh.symm)
      · rw [scanMG_cons_notgw mapId n rest g hgw]
        exact ih g a ha

theorem scanMapGateways_keys (mapId : String) :
    ∀ (nodes : List Node) (g : List (String × List String)) (a : String),
      lookupA g mapId ≠ none →
      (lookupA (scanMapGateways mapId nodes g) a = none ↔ lookupA g a = none) := by
  intro nodes
  induction nodes with
  | nil => intro g a _; rfl
  | cons n rest ih =>
      intro g a hkey
      by_cases hgw : isGatewayNode n = true
      · obtain ⟨cfg, hcfg⟩ := gatewayNode_cfg hgw
        by_cases hmem : cfg.targetMapId ∈ lookupD g mapId
        · rw [scanMG_cons_old mapId n rest g hgw hcfg hmem]
          exact ih g a hkey
        · rw [scanMG_cons_new mapId n rest g hgw hcfg hmem]
          have hkey2 : lookupA (setA g mapId (lookupD g mapId ++ [cfg.targetMapId]))
              mapId ≠ none := by
            rw [lookupA_setA_self]
            simp
          rw [ih _ a hkey2]
          by_cases ha : mapId = a
          · subst ha
            rw [lookupA_setA_self]
            simp only [ne_eq, reduceCtorEq, false_iff]
            exact hkey
          · rw [lookupA_setA_ne _ _ _ _ ha]
      · rw [scanMG_cons_notgw mapId n rest g hgw]
        exact ih g a hkey

theorem scanMapGateways_mem (mapId : String) :
    ∀ (nodes : List Node) (g : List (String × List String)) (a b : String),
      (b ∈ lookupD (scanMapGateways mapId nodes g) a ↔
        b ∈ lookupD g a ∨ (a = mapId ∧ ∃ n ∈ nodes, isGatewayNode n = true ∧
          ∃ cfg, n.gatewayConfig = some cfg ∧ cfg.targetMapId = b)) := by
  intro nodes
  induction nodes with
  | nil =>
      intro g a b
      simp [scanMapGateways]
  | cons n rest ih =>
      intro g a b
      by_cases hgw : isGatewayNode n = true
      · obtain ⟨cfg, hcfg⟩ := gatewayNode_cfg hgw
        by_cases hmem : cfg.targetMapId ∈ lookupD g mapId
        · rw [scanMG_cons_old mapId n rest g hgw hcfg hmem, ih g a b]
          constructor
          · rintro (h | ⟨rfl, hex⟩)
            · exact Or.inl h
            · obtain ⟨n2, hn2, h1, h2⟩ := hex
              exact Or.inr ⟨rfl, n2, by simp [hn2], h1, h2⟩
          · rintro (h | ⟨rfl, n2, hn2, h1, cfg2, h2, h3⟩)
            · exact Or.inl h
            · rcases List.mem_cons.mp hn2 with rfl | hn2
              · left
                rw [hcfg] at h2
                cases h2
                exact h3 ▸ hmem
              · exact Or.inr ⟨rfl, n2, hn2, h1, cfg2, h2, h3⟩
        · rw [scanMG_cons_new mapId n rest g hgw hcfg hmem, ih _ a b]
          by_cases ha : a = mapId
          · subst ha
            have hset : lookupD (setA g a (lookupD g a ++ [cfg.targetMapId])) a =
                lookupD g a ++ [cfg.targetMapId] := by
              rw [lookupD, lookupA_setA_self]
              rfl
            rw [hset]
            simp only [List.mem_append, List.mem_singleton]
            constructor
            · rintro ((h | rfl) | ⟨-, hex⟩)
              · exact Or.inl h
              · exact Or.inr ⟨trivial, n, by simp, hgw, cfg, hcfg, rfl⟩
              · obtain ⟨n2, hn2, h1, h2⟩ := hex
                exact Or.inr ⟨trivial, n2, by simp [hn2], h1, h2⟩
            · rintro (h | ⟨-, n2, hn2, h1, cfg2, h2, h3⟩)
              · exact Or.inl (Or.inl h)
              · rcases List.mem_cons.mp hn2 with rfl | hn2
                · rw [hcfg] at h2
                  cases h2
                  exact Or.inl (Or.inr h3.symm)
                · exact Or.inr ⟨trivial, n2, hn2, h1, cfg2, h2, h3⟩
          · have hset : lookupD (setA g mapId (lookupD g mapId ++ [cfg.targetMapId])) a =
                lookupD g a := by
              rw [lookupD, lookupA_setA_ne _ _ _ _ (fun hh => ha hh.symm)]
              rfl
            rw [hset]
            constructor
            · rintro (h | ⟨rfl, hex⟩)
              · exact Or.inl h
              · exact absurd rfl ha
            · rintro (h | ⟨rfl, hex⟩)
              · exact Or.inl h
              · exact absurd rfl ha
      · rw [scanMG_cons_notgw mapId n rest g hgw, ih g a b]
        constructor
        · rintro (h | ⟨rfl, hex⟩)
          · exact Or.inl h
          · obtain ⟨n2, hn2, h1, h2⟩ := hex
            exact Or.inr ⟨rfl, n2, by simp [hn2], h1, h2⟩
        · rintro (h | ⟨rfl, n2, hn2, h1, h2⟩)
          · exact Or.inl h
          · rcases List.mem_cons.mp hn2 with rfl | hn2
            · exact absurd h1 hgw
            · exact Or.inr ⟨rfl, n2, hn2, h1, h2⟩

theorem scanAllMaps_keys :
    ∀ (maps2 : List MapData) (g : List (String × List String)) (a : String),
      (∀ mp ∈ maps2, lookupA g mp.id ≠ none) →
      (lookupA (scanAllMaps maps2 g) a = none ↔ lookupA g a = none) := by
  intro maps2
  induction maps2 with
  | nil => intro g a _; rfl
  | cons m rest ih =>
      intro g a hkeys
      rw [scanAllMaps]
      have hm : lookupA g m.id ≠ none := hkeys m (by simp)
      have hstep : ∀ x, lookupA (scanMapGateways m.id m.nodes g) x = none ↔
          lookupA g x = none := fun x => scanMapGateways_keys m.id m.nodes g x hm
      rw [ih _ a ?_, hstep a]
      intro mp hmp
      rw [ne_eq, hstep mp.id]
      exact hkeys mp (by simp [hmp])

theorem scanAllMaps_mem :
    ∀ (maps2 : List MapData) (g : List (String × List String)) (a b : String),
      (b ∈ lookupD (scanAllMaps maps2 g) a ↔
        b ∈ lookupD g a ∨ ∃ mp ∈ maps2, mp.id = a ∧ ∃ n ∈ mp.nodes,
          isGatewayNode n = true ∧ ∃ cfg, n.gatewayConfig = some cfg ∧
            cfg.targetMapId = b) := by
  intro maps2
  induction maps2 with
  | nil =>
      intro g a b
      simp [scanAllMaps]
  | cons m rest ih =>
      intro g a b
      rw [scanAllMaps, ih, scanMapGateways_mem]
      constructor
      · rintro ((h | ⟨rfl, hex⟩) | ⟨mp, hmp, rfl, hex⟩)
        · exact Or.inl h
        · exact Or.inr ⟨m, by simp, rfl, hex⟩
        · exact Or.inr ⟨mp, by simp [hmp], rfl, hex⟩
      · rintro (h | ⟨mp, hmp, rfl, hex⟩)
        · exact Or.inl (Or.inl h)
        · rcases List.mem_cons.mp hmp with rfl | hmp
          · exact Or.inl (Or.inr ⟨rfl, hex⟩)
          · exact Or.inr ⟨mp, hmp, rfl, hex⟩

/-- The key set of the meta-graph is exactly the set of map ids. -/
theorem buildMapMetaGraph_keys (maps : List MapData) (a : String) :
    (lookupA (buildMapMetaGraph maps) a).isSome ↔
      a ∈ maps.map (fun mp => mp.id) := by
  have hinit : ∀ mp ∈ maps, lookupA (initMetaGraph maps) mp.id ≠ none := by
    intro mp hmp
    rw [lookupA_initMetaGraph, if_pos (by simp only [List.mem_map]; exact ⟨mp, hmp, rfl⟩)]
    simp
  have hiff := scanAllMaps_keys maps (initMetaGraph maps) a hinit
  rw [lookupA_initMetaGraph] at hiff
  rw [buildMapMetaGraph]
  rcases hv : lookupA (scanAllMaps maps (initMetaGraph maps)) a with _ | v
  · simp only [Option.isSome_none, Bool.false_eq_true, false_iff]
    intro hm
    have := hiff.mp hv
    rw [if_pos hm] at this
    cases this
  · simp only [Option.isSome_some, true_iff]
    by_contra hm
    have := hiff.mpr (by rw [if_neg hm])
    rw [hv] at this
    cases this

/-- The meta-graph edge relation is exactly the derived gateway relation. -/
theorem buildMapMetaGraph_mem (maps : List MapData) (a b : String) :
    b ∈ lookupD (buildMapMetaGraph maps) a ↔ GatewayConnected maps a b := by
  rw [buildMapMetaGraph, scanAllMaps_mem, GatewayConnected]
  have hinit : b ∈ lookupD (initMetaGraph maps) a ↔ False := by
    simp only [iff_false]
    intro hmem
    rw [lookupD, lookupA_initMetaGraph] at hmem
    by_cases hm : a ∈ maps.map (fun mp => mp.id)
    · rw [if_pos hm] at hmem
      cases hmem
    · rw [if_neg hm] at hmem
      cases hmem
  rw [hinit]
  simp


theorem validGateway_iff (n : Node) (b : String) :
    (isGatewayNode n = true ∧ ∃ cfg, n.gatewayConfig = some cfg ∧
      cfg.targetMapId = b) ↔
    (n.type = NodeType.GATEWAY ∧ ∃ cfg, n.gatewayConfig = some cfg ∧
      jsTrim cfg.targetMapId ≠ "" ∧ jsTrim cfg.targetNodeId ≠ "" ∧
      cfg.targetMapId = b) := by
  rw [isGatewayNode_iff]
  constructor
  · rintro ⟨⟨ht, cfg, hcfg, h1, h2⟩, cfg2, hcfg2, h3⟩
    rw [hcfg] at hcfg2
    cases hcfg2
    exact ⟨ht, cfg, hcfg, h1, h2, h3⟩
  · rintro ⟨ht, cfg, hcfg, h1, h2, h3⟩
    exact ⟨⟨ht, cfg, hcfg, h1, h2⟩, cfg, hcfg, h3⟩

/-- C7: the meta-graph built by `buildMapMetaGraph` has exactly the
collection's map ids as keys (a map with no gateways keeps an empty
entry), and a map id `b` appears in the entry for `a` if and only if some
map of id `a` contains a valid gateway node targeting `b` — where a node
is a valid gateway only when its type is `GATEWAY` and both descriptor
fields are non-empty strings (non-empty after trimming, hence in
particular non-empty); malformed gateway nodes contribute no edge. -/
theorem C7_metaGraph_shape (maps : List MapData) :
    (∀ a, (lookupA (buildMapMetaGraph maps) a).isSome ↔
      a ∈ maps.map (fun mp => mp.id)) ∧
    (∀ a b, b ∈ lookupD (buildMapMetaGraph maps) a ↔
      ∃ mp ∈ maps, mp.id = a ∧ ∃ n ∈ mp.nodes, n.type = NodeType.GATEWAY ∧
        ∃ cfg, n.gatewayConfig = some cfg ∧ jsTrim cfg.targetMapId ≠ "" ∧
          jsTrim cfg.targetNodeId ≠ "" ∧ cfg.targetMapId = b) ∧
    (∀ n : Node, isGatewayNode n = true → n.type = NodeType.GATEWAY ∧
      ∃ cfg, n.gatewayConfig = some cfg ∧
        cfg.targetMapId ≠ "" ∧ cfg.targetNodeId ≠ "") := by
  refine ⟨buildMapMetaGraph_keys maps, ?_, ?_⟩
  · intro a b
    rw [buildMapMetaGraph_mem]
    unfold GatewayConnected
    simp only [validGateway_iff]
  · intro n hgw
    obtain ⟨ht, cfg, hcfg, h1, h2⟩ := (isGatewayNode_iff n).mp hgw
    refine ⟨ht, cfg, hcfg, ?_, ?_⟩
    · intro hempty
      rw [hempty] at h1
      exact h1 rfl
    · intro hempty
      rw [hempty] at h2
      exact h2 rfl


/-! ## Chains over the meta-graph -/

theorem MapChain.ne_nil {g : List (String × List String)} {a b : String}
    {l : List String} (h : MapChain g a b l) : l ≠ [] := by
  cases h <;> simp

theorem MapChain.length_pos {g : List (String × List String)} {a b : String}
    {l : List String} (h : MapChain g a b l) : 1 ≤ l.length := by
  cases h <;> simp

theorem MapChain.head_eq {g : List (String × List String)} {a b : String}
    {l : List String} (h : MapChain g a b l) : l.head? = some a := by
  cases h <;> rfl

theorem MapChain.getLast_eq {g : List (String × List String)} {a b : String}
    {l : List String} (h : MapChain g a b l) : l.getLast? = some b := by
  induction h with
  | nil a => rfl
  | cons hs hc ih =>
      rename_i a b c l
      rw [List.getLast?_cons, ih]
      cases hc <;> simp_all

theorem MapChain.snoc {g : List (String × List String)} {a u y : String}
    {l : List String} (h : MapChain g a u l) (hy : y ∈ lookupD g u) :
    MapChain g a y (l ++ [y]) := by
  induction h with
  | nil x => exact MapChain.cons hy (MapChain.nil y)
  | cons hs hc ih => exact MapChain.cons hs (ih hy)

/-- A chain from inside a vertex set to the outside crosses the boundary,
with a prefix chain to the crossing point. -/
theorem mapChain_crossing {g : List (String × List String)} {a b : String}
    {l : List String} (h : MapChain g a b l) (vs : List String)
    (ha : a ∈ vs) (hb : b ∉ vs) :
    ∃ u y l1, u ∈ vs ∧ y ∉ vs ∧ y ∈ lookupD g u ∧ MapChain g a u l1 ∧
      l1.length + 1 ≤ l.length := by
  induction h with
  | nil x => exact absurd ha hb
  | cons hs hc ih =>
      rename_i x y2 z l0
      by_cases hy : y2 ∈ vs
      · obtain ⟨u, y, l1, hu, hyv, hyedge, hchain, hlen⟩ := ih hy hb
        exact ⟨u, y, x :: l1, hu, hyv, hyedge, MapChain.cons hs hchain, by
          simp only [List.length_cons]
          omega⟩
      · exact ⟨x, y2, [x], ha, hy, hs, MapChain.nil x, by
          have := hc.length_pos
          simp only [List.length_cons, List.length_nil]
          omega⟩

/-! ## The BFS loop -/

theorem bfsLoop_succ_nil (g : List (String × List String)) (endMapId : String)
    (f : Nat) (visited : List String) :
    bfsLoop g endMapId (f + 1) visited [] = none := rfl

theorem bfsLoop_succ_found (g : List (String × List String)) (endMapId : String)
    (f : Nat) (visited : List String) (cur : BfsItem) (rest : List BfsItem)
    (h : cur.mapId = endMapId) :
    bfsLoop g endMapId (f + 1) visited (cur :: rest) = some cur.path := by
  simp only [bfsLoop]
  rw [if_pos h]

theorem bfsLoop_succ_vis (g : List (String × List String)) (endMapId : String)
    (f : Nat) (visited : List String) (cur : BfsItem) (rest : List BfsItem)
    (h1 : cur.mapId ≠ endMapId) (h2 : cur.mapId ∈ visited) :
    bfsLoop g endMapId (f + 1) visited (cur :: rest) =
      bfsLoop g endMapId f visited rest := by
  simp only [bfsLoop]
  rw [if_neg h1, if_pos h2]

theorem bfsLoop_succ_visit (g : List (String × List String)) (endMapId : String)
    (f : Nat) (visited : List String) (cur : BfsItem) (rest : List BfsItem)
    (h1 : cur.mapId ≠ endMapId) (h2 : cur.mapId ∉ visited) :
    bfsLoop g endMapId (f + 1) visited (cur :: rest) =
      bfsLoop g endMapId f (cur.mapId :: visited)
        (rest ++ ((lookupD g cur.mapId).filter (fun mp => mp ∉ visited)).map
          (fun mp => BfsItem.mk mp (cur.path ++ [mp]))) := by
  simp only [bfsLoop]
  rw [if_neg h1, if_neg h2]

/-- Popping an unvisited head item: its queued path is no longer than any
chain from the start to it. -/
theorem bfs_pop_min {g : List (String × List String)} {startMapId endMapId : String}
    {lev : String → Nat} {visited : List String} {cur : BfsItem} {rest : List BfsItem}
    (hinv : BInv g startMapId endMapId lev visited (cur :: rest))
    (hnv : cur.mapId ∉ visited) :
    ∀ l, MapChain g startMapId cur.mapId l → cur.path.length ≤ l.length := by
  intro l hl
  obtain ⟨u, y, l1, hu, hy, hyedge, hchain1, hlen⟩ :=
    mapChain_crossing hl visited hinv.startMem hnv
  have hlev := (hinv.levSound u hu).2 l1 hchain1
  rcases hinv.relaxedQ u hu y hyedge with hvis | ⟨it, hit, hitm, hitlen⟩
  · exact absurd hvis hy
  · have hcurle : cur.path.length ≤ it.path.length := by
      rcases List.mem_cons.mp hit with rfl | hit
      · exact le_refl _
      · exact (List.pairwise_cons.mp hinv.sortedQ).1 it hit
    omega


/-- Main BFS loop theorem: from an invariant state with enough fuel, a
returned chain is a minimal-length chain from start to destination, and
`none` means no such chain exists. -/
theorem bfsLoop_spec (g : List (String × List String)) (startMapId endMapId : String) :
    ∀ fuel (lev : String → Nat) visited queue,
      BInv g startMapId endMapId lev visited queue →
      bPhi g visited queue < fuel →
      (∀ r, bfsLoop g endMapId fuel visited queue = some r →
        MapChain g startMapId endMapId r ∧
        ∀ l2, MapChain g startMapId endMapId l2 → r.length ≤ l2.length) ∧
      (bfsLoop g endMapId fuel visited queue = none →
        ¬ ∃ l, MapChain g startMapId endMapId l) := by
  intro fuel
  induction fuel with
  | zero => intro lev visited queue _ h; exact absurd h (Nat.not_lt_zero _)
  | succ f ih =>
      intro lev visited queue hinv hphi
      rcases queue with _ | ⟨cur, rest⟩
      · rw [bfsLoop_succ_nil]
        constructor
        · intro r hr
          cases hr
        · intro _
          rintro ⟨l, hl⟩
          obtain ⟨u, y, l1, hu, hy, hyedge, -, -⟩ :=
            mapChain_crossing hl visited hinv.startMem hinv.endNotVis
          rcases hinv.relaxedQ u hu y hyedge with hvis | ⟨it, hit, -, -⟩
          · exact hy hvis
          · cases hit
      · by_cases hfound : cur.mapId = endMapId
        · rw [bfsLoop_succ_found g endMapId f visited cur rest hfound]
          have hnv : cur.mapId ∉ visited := fun h => hinv.endNotVis (hfound ▸ h)
          refine ⟨?_, fun h => by cases h⟩
          intro r hr
          injection hr with hr2
          subst hr2
          have hchain := hinv.queueChain cur (by simp)
          rw [hfound] at hchain
          refine ⟨hchain, ?_⟩
          intro l2 hl2
          exact bfs_pop_min hinv hnv l2 (by rw [hfound]; exact hl2)
        · by_cases hvis : cur.mapId ∈ visited
          · rw [bfsLoop_succ_vis g endMapId f visited cur rest hfound hvis]
            have hmemq : ∀ it ∈ rest, it ∈ cur :: rest := fun it h => by simp [h]
            have hinv2 : BInv g startMapId endMapId lev visited rest := by
              refine ⟨hinv.startMem, hinv.endNotVis, hinv.levSound, ?_, ?_, ?_, ?_, ?_⟩
              · exact fun it hit => hinv.queueChain it (hmemq it hit)
              · exact (List.pairwise_cons.mp hinv.sortedQ).2
              · exact fun x hx y hy => hinv.spreadQ x (hmemq x hx) y (hmemq y hy)
              · intro u hu y hy
                rcases hinv.relaxedQ u hu y hy with h | ⟨it, hit, hm, hlen⟩
                · exact Or.inl h
                · rcases List.mem_cons.mp hit with rfl | hit
                  · exact Or.inl (by rw [← hm]; exact hvis)
                  · exact Or.inr ⟨it, hit, hm, hlen⟩
              · exact fun u hu it hit => hinv.levLe u hu it (hmemq it hit)
            refine ih lev visited rest hinv2 ?_
            simp only [bPhi, List.length_cons] at hphi ⊢
            omega
          · rw [bfsLoop_succ_visit g endMapId f visited cur rest hfound hvis]
            set pushes : List BfsItem :=
              ((lookupD g cur.mapId).filter (fun mp => mp ∉ visited)).map
                (fun mp => BfsItem.mk mp (cur.path ++ [mp])) with hpushes
            have hcurchain : MapChain g startMapId cur.mapId cur.path :=
              hinv.queueChain cur (by simp)
            have hmin : ∀ l, MapChain g startMapId cur.mapId l →
                cur.path.length ≤ l.length := bfs_pop_min hinv hvis
            have hpush : ∀ p ∈ pushes, p.path.length = cur.path.length + 1 ∧
                MapChain g startMapId p.mapId p.path ∧
                p.mapId ∈ lookupD g cur.mapId ∧ p.mapId ∉ visited := by
              intro p hp
              rw [hpushes] at hp
              obtain ⟨y, hy, rfl⟩ := List.mem_map.mp hp
              have hy2 := List.mem_filter.mp hy
              have hynv : y ∉ visited := by simpa using hy2.2
              refine ⟨by simp, hcurchain.snoc hy2.1, hy2.1, hynv⟩
            have hrestq : ∀ it ∈ rest, it ∈ cur :: rest := fun it h => by simp [h]
            have hrestle : ∀ it ∈ rest, cur.path.length ≤ it.path.length :=
              (List.pairwise_cons.mp hinv.sortedQ).1
            set lev2 : String → Nat := Function.update lev cur.mapId cur.path.length
              with hlev2
            have hlev2cur : lev2 cur.mapId = cur.path.length := by
              rw [hlev2, Function.update_same]
            have hlev2old : ∀ u ∈ visited, lev2 u = lev u := by
              intro u hu
              have hne : u ≠ cur.mapId := by
                intro h
                rw [h] at hu
                exact hvis hu
              rw [hlev2, Function.update_noteq hne]
            have hinv2 : BInv g startMapId endMapId lev2 (cur.mapId :: visited)
                (rest ++ pushes) := by
              refine ⟨List.mem_cons_of_mem _ hinv.startMem, ?_, ?_, ?_, ?_, ?_, ?_, ?_⟩
              · intro h
                rcases List.mem_cons.mp h with h | h
                · exact hfound h.symm
                · exact hinv.endNotVis h
              · intro u hu
                rcases List.mem_cons.mp hu with rfl | hu
                · rw [hlev2cur]
                  exact ⟨⟨cur.path, hcurchain, rfl⟩, hmin⟩
                · rw [hlev2old u hu]
                  exact hinv.levSound u hu
              · intro it hit
                rcases List.mem_append.mp hit with h | h
                · exact hinv.queueChain it (hrestq it h)
                · exact (hpush it h).2.1
              · rw [List.pairwise_append]
                refine ⟨(List.pairwise_cons.mp hinv.sortedQ).2, ?_, ?_⟩
                · refine List.pairwise_of_forall_mem_list ?_
                  intro x hx y hy
                  rw [(hpush x hx).1, (hpush y hy).1]
                · intro x hx y hy
                  have h1 := (hpush y hy).1
                  have h2 := hinv.spreadQ x (hrestq x hx) cur (by simp)
                  omega
              · intro x hx y hy
                rcases List.mem_append.mp hx with hx2 | hx2 <;>
                  rcases List.mem_append.mp hy with hy2 | hy2
                · exact hinv.spreadQ x (hrestq x hx2) y (hrestq y hy2)
                · rw [(hpush y hy2).1]
                  have := hinv.spreadQ x (hrestq x hx2) cur (by simp)
                  omega
                · rw [(hpush x hx2).1]
                  have := hrestle y hy2
                  omega
                · rw [(hpush x hx2).1, (hpush y hy2).1]
                  omega
              · intro u hu y hy
                rcases List.mem_cons.mp hu with rfl | hu
                · by_cases hyv : y ∈ visited
                  · exact Or.inl (List.mem_cons_of_mem _ hyv)
                  · refine Or.inr ⟨⟨y, cur.path ++ [y]⟩, ?_, rfl, ?_⟩
                    · refine List.mem_append_right _ ?_
                      rw [hpushes]
                      refine List.mem_map.mpr ⟨y, ?_, rfl⟩
                      refine List.mem_filter.mpr ⟨hy, by simpa using hyv⟩
                    · rw [hlev2cur]
                      simp
                · rcases hinv.relaxedQ u hu y hy with h | ⟨it, hit, hm, hlen⟩
                  · exact Or.inl (List.mem_cons_of_mem _ h)
                  · rcases List.mem_cons.mp hit with rfl | hit
                    · exact Or.inl (by rw [← hm]; exact List.mem_cons_self _ _)
                    · exact Or.inr ⟨it, List.mem_append_left _ hit, hm,
                        by rw [hlev2old u hu]; exact hlen⟩
              · intro u hu it hit
                rcases List.mem_cons.mp hu with rfl | hu
                · rw [hlev2cur]
                  rcases List.mem_append.mp hit with h | h
                  · exact hrestle it h
                  · rw [(hpush it h).1]
                    omega
                · rw [hlev2old u hu]
                  rcases List.mem_append.mp hit with h | h
                  · exact hinv.levLe u hu it (hrestq it h)
                  · rw [(hpush it h).1]
                    have := hinv.levLe u hu cur (by simp)
                    omega
            refine ih lev2 (cur.mapId :: visited) (rest ++ pushes) hinv2 ?_
            have hplen : pushes.length ≤ (lookupD g cur.mapId).length := by
              rw [hpushes, List.length_map]
              exact List.length_filter_le _ _
            have hrem := remSize_visit g cur.mapId visited hvis
            simp only [bPhi, List.length_append, List.length_cons] at hphi ⊢
            omega


theorem bfsRun_spec (g : List (String × List String)) (startMapId endMapId : String)
    (hne : startMapId ≠ endMapId) :
    (∀ r, bfsRun g startMapId endMapId = some r →
      MapChain g startMapId endMapId r ∧
      ∀ l2, MapChain g startMapId endMapId l2 → r.length ≤ l2.length) ∧
    (bfsRun g startMapId endMapId = none →
      ¬ ∃ l, MapChain g startMapId endMapId l) := by
  have hfuel : bfsFuel g = (1 + metaSize g) + 1 := by rw [bfsFuel]; omega
  set pushes0 : List BfsItem :=
    ((lookupD g startMapId).filter (fun mp => mp ∉ ([] : List String))).map
      (fun mp => BfsItem.mk mp ([startMapId] ++ [mp])) with hpushes0
  have hstep : bfsRun g startMapId endMapId =
      bfsLoop g endMapId (1 + metaSize g) [startMapId] ([] ++ pushes0) := by
    rw [bfsRun, hfuel]
    exact bfsLoop_succ_visit g endMapId _ [] ⟨startMapId, [startMapId]⟩ [] hne
      (by simp)
  have hpush : ∀ p ∈ pushes0, p.path.length = 2 ∧
      MapChain g startMapId p.mapId p.path := by
    intro p hp
    rw [hpushes0] at hp
    obtain ⟨y, hy, rfl⟩ := List.mem_map.mp hp
    have hy2 := List.mem_filter.mp hy
    exact ⟨by simp, (MapChain.nil startMapId).snoc hy2.1⟩
  have hinv : BInv g startMapId endMapId (fun _ => 1) [startMapId] ([] ++ pushes0) := by
    refine ⟨by simp, by simp [Ne.symm hne], ?_, ?_, ?_, ?_, ?_, ?_⟩
    · intro u hu
      rcases List.mem_cons.mp hu with rfl | hu
      · exact ⟨⟨[u], MapChain.nil u, rfl⟩, fun l2 hl2 => hl2.length_pos⟩
      · cases hu
    · intro it hit
      rw [List.nil_append] at hit
      exact (hpush it hit).2
    · rw [List.nil_append]
      refine List.pairwise_of_forall_mem_list ?_
      intro x hx y hy
      rw [(hpush x hx).1, (hpush y hy).1]
    · intro x hx y hy
      rw [List.nil_append] at hx hy
      rw [(hpush x hx).1, (hpush y hy).1]
      omega
    · intro u hu y hy
      rcases List.mem_cons.mp hu with rfl | hu
      · right
        refine ⟨⟨y, [u] ++ [y]⟩, ?_, rfl, by simp⟩
        rw [List.nil_append, hpushes0]
        exact List.mem_map.mpr ⟨y, List.mem_filter.mpr ⟨hy, by simp⟩, rfl⟩
      · cases hu
    · intro u hu it hit
      rw [List.nil_append] at hit
      rw [(hpush it hit).1]
      omega
  have hphi : bPhi g [startMapId] ([] ++ pushes0) < 1 + metaSize g := by
    have hplen : pushes0.length ≤ (lookupD g startMapId).length := by
      rw [hpushes0, List.length_map]
      exact List.length_filter_le _ _
    have hrem := remSize_visit g startMapId [] (by simp)
    have hms : remSize g ([] : List String) = metaSize g := by
      rw [remSize_nil_visited]; rfl
    simp only [bPhi, List.nil_append]
    omega
  rw [hstep]
  exact bfsLoop_spec g startMapId endMapId (1 + metaSize g) (fun _ => 1)
    [startMapId] ([] ++ pushes0) hinv hphi

theorem findMapChain_start_missing (startMapId endMapId : String)
    (allMaps : List MapData) (hne : startMapId ≠ endMapId)
    (hs : lookupA (buildMapMetaGraph allMaps) startMapId = none) :
    findMapChain startMapId endMapId allMaps =
      .error ⟨mapNotFoundMsg "Start" startMapId, .MAP_NOT_FOUND⟩ := by
  simp only [findMapChain, if_neg hne]
  rw [if_pos (by rw [hs]; rfl)]

theorem findMapChain_end_missing (startMapId endMapId : String)
    (allMaps : List MapData) (hne : startMapId ≠ endMapId)
    (hs : lookupA (buildMapMetaGraph allMaps) startMapId ≠ none)
    (he : lookupA (buildMapMetaGraph allMaps) endMapId = none) :
    findMapChain startMapId endMapId allMaps =
      .error ⟨mapNotFoundMsg "End" endMapId, .MAP_NOT_FOUND⟩ := by
  simp only [findMapChain, if_neg hne]
  rw [if_neg (fun h => hs (Option.isNone_iff_eq_none.mp h)),
    if_pos (by rw [he]; rfl)]

theorem findMapChain_bfs (startMapId endMapId : String)
    (allMaps : List MapData) (hne : startMapId ≠ endMapId)
    (hs : lookupA (buildMapMetaGraph allMaps) startMapId ≠ none)
    (he : lookupA (buildMapMetaGraph allMaps) endMapId ≠ none) :
    findMapChain startMapId endMapId allMaps =
      match bfsRun (buildMapMetaGraph allMaps) startMapId endMapId with
      | some p => .ok p
      | none => .error ⟨noRouteMsg startMapId endMapId, .NO_PATH⟩ := by
  simp only [findMapChain, if_neg hne]
  rw [if_neg (fun h => hs (Option.isNone_iff_eq_none.mp h)),
    if_neg (fun h => he (Option.isNone_iff_eq_none.mp h))]
  rfl

theorem gatewayChain_iff_mapChain (allMaps : List MapData) (a b : String)
    (l : List String) :
    GatewayChain allMaps a b l ↔ MapChain (buildMapMetaGraph allMaps) a b l := by
  constructor
  · intro h
    induction h with
    | nil x => exact MapChain.nil x
    | cons hc hrest ih =>
        exact MapChain.cons ((buildMapMetaGraph_mem allMaps _ _).mpr hc) ih
  · intro h
    induction h with
    | nil x => exact GatewayChain.nil x
    | cons hc hrest ih =>
        exact GatewayChain.cons ((buildMapMetaGraph_mem allMaps _ _).mp hc) ih

/-! ## Claims about the map-chain router -/

theorem C4_findMapChain_counterexample :
    GatewayChain [gwOnlyMap] "A" "X" ["A", "X"] ∧
      findMapChain "A" "X" [gwOnlyMap] =
        .error ⟨mapNotFoundMsg "End" "X", .MAP_NOT_FOUND⟩ := by
  constructor
  · refine GatewayChain.cons ?_ (GatewayChain.nil "X")
    exact ⟨gwOnlyMap, by simp, rfl, ⟨"gx", .GATEWAY, some ⟨"X", "entry"⟩⟩,
      by simp [gwOnlyMap], by decide, ⟨"X", "entry"⟩, rfl, rfl⟩
  · decide

/-- C4 (amended): for every start and end map id joined by some gateway
chain, provided additionally that the end map id is an id of the
collection (equivalently a key of the meta-graph) or equals the start id,
`findMapChain` returns a gateway chain from start to end of minimal
length; when start equals end it returns `[start]`. (The original claim
without the key condition fails: a gateway may target a map id that is
not in the collection, and then `findMapChain` reports `MAP_NOT_FOUND`
even though a gateway chain exists — see the counterexample.) -/
theorem C4_findMapChain_shortest (startMapId endMapId : String)
    (allMaps : List MapData)
    (hchain : ∃ l, GatewayChain allMaps startMapId endMapId l)
    (hend : startMapId = endMapId ∨ endMapId ∈ allMaps.map (fun mp => mp.id)) :
    ∃ p, findMapChain startMapId endMapId allMaps = .ok p ∧
      p.head? = some startMapId ∧ p.getLast? = some endMapId ∧
      GatewayChain allMaps startMapId endMapId p ∧
      (∀ l2, GatewayChain allMaps startMapId endMapId l2 → p.length ≤ l2.length) ∧
      (startMapId = endMapId → p = [startMapId]) := by
  by_cases hne : startMapId = endMapId
  · subst hne
    refine ⟨[startMapId], by rw [findMapChain, if_pos rfl], rfl, rfl,
      GatewayChain.nil _, ?_, fun _ => rfl⟩
    intro l2 hl2
    have := ((gatewayChain_iff_mapChain allMaps _ _ l2).mp hl2).length_pos
    simpa using this
  · obtain ⟨l, hl⟩ := hchain
    have hlm := (gatewayChain_iff_mapChain allMaps _ _ l).mp hl
    have hs : lookupA (buildMapMetaGraph allMaps) startMapId ≠ none := by
      cases hlm with
      | nil => exact absurd rfl hne
      | cons hedge hrest =>
          intro hnone
          rw [lookupD, hnone] at hedge
          cases hedge
    have he : lookupA (buildMapMetaGraph allMaps) endMapId ≠ none := by
      rcases hend with h | h
      · exact absurd h hne
      · intro hnone
        have := (buildMapMetaGraph_keys allMaps endMapId).mpr h
        rw [hnone] at this
        cases this
    obtain ⟨hsome, hnone⟩ := bfsRun_spec (buildMapMetaGraph allMaps)
      startMapId endMapId hne
    have hval := findMapChain_bfs startMapId endMapId allMaps hne hs he
    rcases hb : bfsRun (buildMapMetaGraph allMaps) startMapId endMapId with _ | p
    · exact absurd ⟨l, hlm⟩ (hnone hb)
    · rw [hb] at hval
      obtain ⟨hchain2, hmin⟩ := hsome p hb
      refine ⟨p, hval, hchain2.head_eq, hchain2.getLast_eq,
        (gatewayChain_iff_mapChain allMaps _ _ p).mpr hchain2, ?_, fun h => absurd h hne⟩
      intro l2 hl2
      exact hmin l2 ((gatewayChain_iff_mapChain allMaps _ _ l2).mp hl2)

theorem C4_findMapChain_shortest_witness :
    ((∃ l, GatewayChain [sampleMapA, sampleMapB] "M1" "M2" l) ∧
      (("M1" : String) = "M2" ∨
        ("M2" : String) ∈ [sampleMapA, sampleMapB].map (fun mp => mp.id))) ∧
    (∃ p, findMapChain "M1" "M2" [sampleMapA, sampleMapB] = .ok p ∧
      p.head? = some "M1" ∧ p.getLast? = some "M2" ∧
      GatewayChain [sampleMapA, sampleMapB] "M1" "M2" p ∧
      (∀ l2, GatewayChain [sampleMapA, sampleMapB] "M1" "M2" l2 →
        p.length ≤ l2.length) ∧
      (("M1" : String) = "M2" → p = ["M1"])) := by
  have hconn : GatewayConnected [sampleMapA, sampleMapB] "M1" "M2" :=
    ⟨sampleMapA, by simp, rfl, ⟨"g1", .GATEWAY, some ⟨"M2", "e1"⟩⟩,
      by simp [sampleMapA], by decide, ⟨"M2", "e1"⟩, rfl, rfl⟩
  have hchain : ∃ l, GatewayChain [sampleMapA, sampleMapB] "M1" "M2" l :=
    ⟨["M1", "M2"], GatewayChain.cons hconn (GatewayChain.nil "M2")⟩
  have hend : ("M1" : String) = "M2" ∨
      ("M2" : String) ∈ [sampleMapA, sampleMapB].map (fun mp => mp.id) :=
    Or.inr (by decide)
  exact ⟨⟨hchain, hend⟩,
    C4_findMapChain_shortest "M1" "M2" [sampleMapA, sampleMapB] hchain hend⟩


/-- C5: for distinct map ids, `findMapChain` fails with `MAP_NOT_FOUND`
exactly when either id is absent from the meta-graph key set, fails with
the no-route error (reported with code `NO_PATH` and a message naming
both maps) exactly when both ids are keys but no meta-graph chain
connects them, and no other failure kind occurs. -/
theorem C5_findMapChain_errors (startMapId endMapId : String)
    (allMaps : List MapData) (hne : startMapId ≠ endMapId) :
    ((∃ msg, findMapChain startMapId endMapId allMaps =
        .error ⟨msg, .MAP_NOT_FOUND⟩) ↔
      (lookupA (buildMapMetaGraph allMaps) startMapId = none ∨
        lookupA (buildMapMetaGraph allMaps) endMapId = none)) ∧
    ((findMapChain startMapId endMapId allMaps =
        .error ⟨noRouteMsg startMapId endMapId, .NO_PATH⟩) ↔
      (lookupA (buildMapMetaGraph allMaps) startMapId ≠ none ∧
        lookupA (buildMapMetaGraph allMaps) endMapId ≠ none ∧
        ¬ ∃ l, MapChain (buildMapMetaGraph allMaps) startMapId endMapId l)) ∧
    (∀ e, findMapChain startMapId endMapId allMaps = .error e →
      e.code = .MAP_NOT_FOUND ∨ e.code = .NO_PATH) := by
  by_cases hs : lookupA (buildMapMetaGraph allMaps) startMapId = none
  · rw [findMapChain_start_missing startMapId endMapId allMaps hne hs]
    refine ⟨⟨fun _ => Or.inl hs, fun _ => ⟨mapNotFoundMsg "Start" startMapId, rfl⟩⟩,
      ⟨?_, ?_⟩, ?_⟩
    · intro h
      simp only [Except.error.injEq, PathfinderError.mk.injEq] at h
      exact absurd h.2 (by decide)
    · rintro ⟨h1, -, -⟩
      exact absurd hs h1
    · intro e h
      injection h with h2
      rw [← h2]
      exact Or.inl rfl
  · by_cases he : lookupA (buildMapMetaGraph allMaps) endMapId = none
    · rw [findMapChain_end_missing startMapId endMapId allMaps hne hs he]
      refine ⟨⟨fun _ => Or.inr he, fun _ => ⟨mapNotFoundMsg "End" endMapId, rfl⟩⟩,
        ⟨?_, ?_⟩, ?_⟩
      · intro h
        simp only [Except.error.injEq, PathfinderError.mk.injEq] at h
        exact absurd h.2 (by decide)
      · rintro ⟨-, h2, -⟩
        exact absurd he h2
      · intro e h
        injection h with h2
        rw [← h2]
        exact Or.inl rfl
    · have hval := findMapChain_bfs startMapId endMapId allMaps hne hs he
      obtain ⟨hsome, hnone⟩ := bfsRun_spec (buildMapMetaGraph allMaps)
        startMapId endMapId hne
      rcases hb : bfsRun (buildMapMetaGraph allMaps) startMapId endMapId with _ | p
      · rw [hb] at hval
        rw [hval]
        refine ⟨⟨?_, ?_⟩, ⟨fun _ => ⟨hs, he, hnone hb⟩, fun _ => rfl⟩, ?_⟩
        · rintro ⟨msg, h⟩
          simp only [Except.error.injEq, PathfinderError.mk.injEq] at h
          exact absurd h.2 (by decide)
        · rintro (h | h)
          · exact absurd h hs
          · exact absurd h he
        · intro e h
          injection h with h2
          rw [← h2]
          exact Or.inr rfl
      · rw [hb] at hval
        rw [hval]
        refine ⟨⟨?_, ?_⟩, ⟨?_, ?_⟩, ?_⟩
        · rintro ⟨msg, h⟩
          cases h
        · rintro (h | h)
          · exact absurd h hs
          · exact absurd h he
        · intro h
          cases h
        · rintro ⟨-, -, hnochain⟩
          exact absurd ⟨p, (hsome p hb).1⟩ hnochain
        · intro e h
          cases h

theorem C5_findMapChain_errors_witness :
    (("A" : String) ≠ "B") ∧
    (((∃ msg, findMapChain "A" "B" [gwOnlyMap] = .error ⟨msg, .MAP_NOT_FOUND⟩) ↔
      (lookupA (buildMapMetaGraph [gwOnlyMap]) "A" = none ∨
        lookupA (buildMapMetaGraph [gwOnlyMap]) "B" = none)) ∧
    ((findMapChain "A" "B" [gwOnlyMap] =
        .error ⟨noRouteMsg "A" "B", .NO_PATH⟩) ↔
      (lookupA (buildMapMetaGraph [gwOnlyMap]) "A" ≠ none ∧
        lookupA (buildMapMetaGraph [gwOnlyMap]) "B" ≠ none ∧
        ¬ ∃ l, MapChain (buildMapMetaGraph [gwOnlyMap]) "A" "B" l)) ∧
    (∀ e, findMapChain "A" "B" [gwOnlyMap] = .error e →
      e.code = .MAP_NOT_FOUND ∨ e.code = .NO_PATH)) :=
  ⟨by decide, C5_findMapChain_errors "A" "B" [gwOnlyMap] (by decide)⟩


/-! ## The gateway selector -/

theorem mem_findAllGatewaysToMap (m : MapData) (targetMapId : String) (gnode : Node) :
    gnode ∈ findAllGatewaysToMap m targetMapId ↔
      gnode ∈ m.nodes ∧ isGatewayNode gnode = true ∧
        ∃ cfg, gnode.gatewayConfig = some cfg ∧ cfg.targetMapId = targetMapId := by
  rw [findAllGatewaysToMap, List.mem_filter]
  rcases hcfg : gnode.gatewayConfig with _ | cfg
  · simp only [hcfg, Bool.and_eq_true]
    constructor
    · rintro ⟨h1, h2, h3⟩
      cases h3
    · rintro ⟨h1, h2, cfg, hc, h3⟩
      cases hc
  · simp only [hcfg, Bool.and_eq_true, beq_iff_eq, Option.some_inj]
    constructor
    · rintro ⟨h1, h2, h3⟩
      exact ⟨h1, h2, cfg, rfl, h3⟩
    · rintro ⟨h1, h2, cfg2, rfl, h3⟩
      exact ⟨h1, h2, h3⟩

theorem bgf_cons_err (m : MapData) (startNodeId : String) (gw : Node)
    (rest : List Node) (acc : Option (Node × List String × Nat))
    {e : PathfinderError} (hlp : findLocalPath m startNodeId gw.id = .error e) :
    bestGatewayFold m startNodeId (gw :: rest) acc =
      bestGatewayFold m startNodeId rest acc := by
  rw [bestGatewayFold, hlp]

theorem bgf_cons_ok_none (m : MapData) (startNodeId : String) (gw : Node)
    (rest : List Node) {p : List String}
    (hlp : findLocalPath m startNodeId gw.id = .ok p) :
    bestGatewayFold m startNodeId (gw :: rest) none =
      bestGatewayFold m startNodeId rest
        (some (gw, p, calculatePathDistance m p)) := by
  rw [bestGatewayFold, hlp]

theorem bgf_cons_ok_lt (m : MapData) (startNodeId : String) (gw : Node)
    (rest : List Node) (bg : Node) (bp : List String) (bd : Nat) {p : List String}
    (hlp : findLocalPath m startNodeId gw.id = .ok p)
    (hlt : calculatePathDistance m p < bd) :
    bestGatewayFold m startNodeId (gw :: rest) (some (bg, bp, bd)) =
      bestGatewayFold m startNodeId rest
        (some (gw, p, calculatePathDistance m p)) := by
  rw [bestGatewayFold, hlp]
  exact if_pos hlt

theorem bgf_cons_ok_ge (m : MapData) (startNodeId : String) (gw : Node)
    (rest : List Node) (bg : Node) (bp : List String) (bd : Nat) {p : List String}
    (hlp : findLocalPath m startNodeId gw.id = .ok p)
    (hlt : ¬ calculatePathDistance m p < bd) :
    bestGatewayFold m startNodeId (gw :: rest) (some (bg, bp, bd)) =
      bestGatewayFold m startNodeId rest (some (bg, bp, bd)) := by
  rw [bestGatewayFold, hlp]
  exact if_neg hlt

theorem bestGatewayFold_none (m : MapData) (startNodeId : String) :
    ∀ (gws : List Node) (acc : Option (Node × List String × Nat)),
      bestGatewayFold m startNodeId gws acc = none ↔
        (acc = none ∧ ∀ gw ∈ gws, ∀ p, findLocalPath m startNodeId gw.id ≠ .ok p) := by
  intro gws
  induction gws with
  | nil =>
      intro acc
      simp [bestGatewayFold]
  | cons gw rest ih =>
      intro acc
      rcases hlp : findLocalPath m startNodeId gw.id with e | p
      · rw [bgf_cons_err m startNodeId gw rest acc hlp, ih acc]
        constructor
        · rintro ⟨h1, h2⟩
          refine ⟨h1, ?_⟩
          intro g2 hg2 p2
          rcases List.mem_cons.mp hg2 with rfl | hg2
          · rw [hlp]
            intro h
            cases h
          · exact h2 g2 hg2 p2
        · rintro ⟨h1, h2⟩
          exact ⟨h1, fun g2 hg2 p2 => h2 g2 (by simp [hg2]) p2⟩
      · have hgw : ∀ acc2 : Node × List String × Nat,
            ¬ bestGatewayFold m startNodeId rest (some acc2) = none := by
          intro acc2 hcontra
          have := (ih (some acc2)).mp hcontra
          cases this.1
        rcases acc with _ | ⟨bg, bp, bd⟩
        · rw [bgf_cons_ok_none m startNodeId gw rest hlp]
          constructor
          · intro h
            exact absurd h (hgw _)
          · rintro ⟨-, h2⟩
            exact absurd hlp (h2 gw (by simp) p)
        · by_cases hlt : calculatePathDistance m p < bd
          · rw [bgf_cons_ok_lt m startNodeId gw rest bg bp bd hlp hlt]
            constructor
            · intro h
              exact absurd h (hgw _)
            · rintro ⟨h1, -⟩
              cases h1
          · rw [bgf_cons_ok_ge m startNodeId gw rest bg bp bd hlp hlt]
            constructor
            · intro h
              exact absurd h (hgw _)
            · rintro ⟨h1, -⟩
              cases h1

theorem bestGatewayFold_some (m : MapData) (startNodeId : String) :
    ∀ (gws : List Node) (acc : Option (Node × List String × Nat))
      (g : Node) (p : List String) (d : Nat),
      bestGatewayFold m startNodeId gws acc = some (g, p, d) →
      (acc = some (g, p, d) ∨ (g ∈ gws ∧ findLocalPath m startNodeId g.id = .ok p ∧
        d = calculatePathDistance m p)) ∧
      (∀ g2 ∈ gws, ∀ p2, findLocalPath m startNodeId g2.id = .ok p2 →
        d ≤ calculatePathDistance m p2) ∧
      (∀ g0 p0 d0, acc = some (g0, p0, d0) → d ≤ d0) := by
  intro gws
  induction gws with
  | nil =>
      intro acc g p d h
      rw [bestGatewayFold] at h
      refine ⟨Or.inl h, fun g2 hg2 => absurd hg2 (by simp), ?_⟩
      intro g0 p0 d0 h0
      rw [h0] at h
      injection h with h2
      injection h2 with h3 h4
      injection h4 with h5 h6
      omega
  | cons gw rest ih =>
      intro acc g p d h
      rcases hlp : findLocalPath m startNodeId gw.id with e | p1
      · rw [bgf_cons_err m startNodeId gw rest acc hlp] at h
        obtain ⟨h1, h2, h3⟩ := ih acc g p d h
        refine ⟨?_, ?_, h3⟩
        · rcases h1 with h1 | ⟨hmem, hok, hd⟩
          · exact Or.inl h1
          · exact Or.inr ⟨by simp [hmem], hok, hd⟩
        · intro g2 hg2 p2 hok2
          rcases List.mem_cons.mp hg2 with rfl | hg2
          · rw [hlp] at hok2
            cases hok2
          · exact h2 g2 hg2 p2 hok2
      · have hdet : ∀ p2, findLocalPath m startNodeId gw.id = .ok p2 → p2 = p1 := by
          intro p2 h2
          rw [hlp] at h2
          injection h2 with h3
          exact h3.symm
        rcases acc with _ | ⟨bg, bp, bd⟩
        · rw [bgf_cons_ok_none m startNodeId gw rest hlp] at h
          obtain ⟨h1, h2, h3⟩ := ih (some (gw, p1, calculatePathDistance m p1)) g p d h
          have hdle : d ≤ calculatePathDistance m p1 := h3 gw p1 _ rfl
          refine ⟨?_, ?_, ?_⟩
          · rcases h1 with h1 | ⟨hmem, hok, hd⟩
            · injection h1 with h1
              injection h1 with ha hb
              injection hb with hb hc
              subst ha
              subst hb
              subst hc
              exact Or.inr ⟨by simp, hlp, rfl⟩
            · exact Or.inr ⟨by simp [hmem], hok, hd⟩
          · intro g2 hg2 p2 hok2
            rcases List.mem_cons.mp hg2 with rfl | hg2
            · rw [hdet p2 hok2]
              exact hdle
            · exact h2 g2 hg2 p2 hok2
          · intro g0 p0 d0 h0
            cases h0
        · by_cases hlt : calculatePathDistance m p1 < bd
          · rw [bgf_cons_ok_lt m startNodeId gw rest bg bp bd hlp hlt] at h
            obtain ⟨h1, h2, h3⟩ := ih (some (gw, p1, calculatePathDistance m p1)) g p d h
            have hdle : d ≤ calculatePathDistance m p1 := h3 gw p1 _ rfl
            refine ⟨?_, ?_, ?_⟩
            · rcases h1 with h1 | ⟨hmem, hok, hd⟩
              · injection h1 with h1
                injection h1 with ha hb
                injection hb with hb hc
                subst ha
                subst hb
                subst hc
                exact Or.inr ⟨by simp, hlp, rfl⟩
              · exact Or.inr ⟨by simp [hmem], hok, hd⟩
            · intro g2 hg2 p2 hok2
              rcases List.mem_cons.mp hg2 with rfl | hg2
              · rw [hdet p2 hok2]
                exact hdle
              · exact h2 g2 hg2 p2 hok2
            · intro g0 p0 d0 h0
              injection h0 with h0
              injection h0 with ha hb
              injection hb with hb hc
              omega
          · rw [bgf_cons_ok_ge m startNodeId gw rest bg bp bd hlp hlt] at h
            obtain ⟨h1, h2, h3⟩ := ih (some (bg, bp, bd)) g p d h
            have hdle : d ≤ bd := h3 bg bp bd rfl
            refine ⟨?_, ?_, h3⟩
            · rcases h1 with h1 | ⟨hmem, hok, hd⟩
              · exact Or.inl h1
              · exact Or.inr ⟨by simp [hmem], hok, hd⟩
            · intro g2 hg2 p2 hok2
              rcases List.mem_cons.mp hg2 with rfl | hg2
              · rw [hdet p2 hok2]
                omega
              · exact h2 g2 hg2 p2 hok2

/-- C6: the gateway selector considers exactly the valid gateway nodes
targeting the desired map, discards candidates the local router cannot
reach from the start, among the remaining returns one of minimal total
edge weight (as recomputed by the path-distance sum) together with its
local path, and returns `none` exactly when there is no candidate or no
reachable candidate. -/
theorem C6_findBestGateway (m : MapData) (startNodeId targetMapId : String) :
    (∀ gnode, gnode ∈ findAllGatewaysToMap m targetMapId ↔
      gnode ∈ m.nodes ∧ isGatewayNode gnode = true ∧
        ∃ cfg, gnode.gatewayConfig = some cfg ∧ cfg.targetMapId = targetMapId) ∧
    (∀ gnode path, findBestGateway m startNodeId targetMapId = some (gnode, path) →
      gnode ∈ findAllGatewaysToMap m targetMapId ∧
      findLocalPath m startNodeId gnode.id = .ok path ∧
      ∀ g2 ∈ findAllGatewaysToMap m targetMapId, ∀ p2,
        findLocalPath m startNodeId g2.id = .ok p2 →
        calculatePathDistance m path ≤ calculatePathDistance m p2) ∧
    (findBestGateway m startNodeId targetMapId = none ↔
      ∀ g2 ∈ findAllGatewaysToMap m targetMapId, ∀ p2,
        findLocalPath m startNodeId g2.id ≠ .ok p2) := by
  refine ⟨mem_findAllGatewaysToMap m targetMapId, ?_, ?_⟩
  · intro gnode path h
    rw [findBestGateway] at h
    by_cases hlen : (findAllGatewaysToMap m targetMapId).length = 0
    · rw [if_pos hlen] at h
      cases h
    · rw [if_neg hlen] at h
      rcases hfold : bestGatewayFold m startNodeId
          (findAllGatewaysToMap m targetMapId) none with _ | ⟨g, p, d⟩
      · rw [hfold] at h
        cases h
      · rw [hfold] at h
        simp only [Option.map_some'] at h
        injection h with h2
        injection h2 with ha hb
        subst ha
        subst hb
        obtain ⟨h1, h2, -⟩ :=
          bestGatewayFold_some m startNodeId _ none g p d hfold
        rcases h1 with h1 | ⟨hmem, hok, hd⟩
        · cases h1
        · refine ⟨hmem, hok, ?_⟩
          intro g2 hg2 p2 hok2
          have := h2 g2 hg2 p2 hok2
          omega
  · rw [findBestGateway]
    by_cases hlen : (findAllGatewaysToMap m targetMapId).length = 0
    · rw [if_pos hlen]
      have hnil : findAllGatewaysToMap m targetMapId = [] :=
        List.length_eq_zero.mp hlen
      simp only [true_iff, hnil]
      intro g2 hg2
      cases hg2
    · rw [if_neg hlen]
      rcases hfold : bestGatewayFold m startNodeId
          (findAllGatewaysToMap m targetMapId) none with _ | ⟨g, p, d⟩
      · simp only [Option.map_none', true_iff]
        exact ((bestGatewayFold_none m startNodeId _ none).mp hfold).2
      · simp only [Option.map_some', reduceCtorEq, false_iff, not_forall]
        obtain ⟨h1, -, -⟩ := bestGatewayFold_some m startNodeId _ none g p d hfold
        rcases h1 with h1 | ⟨hmem, hok, -⟩
        · cases h1
        · exact ⟨g, hmem, p, by simp [hok]⟩

theorem C6_findBestGateway_witness :
    ((⟨"g1", NodeType.GATEWAY, some ⟨"M2", "e1"⟩⟩ : Node) ∈
        findAllGatewaysToMap sampleMapA "M2" ↔
      (⟨"g1", NodeType.GATEWAY, some ⟨"M2", "e1"⟩⟩ : Node) ∈ sampleMapA.nodes ∧
        isGatewayNode ⟨"g1", NodeType.GATEWAY, some ⟨"M2", "e1"⟩⟩ = true ∧
        ∃ cfg, (⟨"g1", NodeType.GATEWAY, some ⟨"M2", "e1"⟩⟩ : Node).gatewayConfig =
          some cfg ∧ cfg.targetMapId = "M2") ∧
    (findBestGateway sampleMapA "a" "M2" =
      some (⟨"g1", NodeType.GATEWAY, some ⟨"M2", "e1"⟩⟩, ["a", "g1"])) := by
  refine ⟨(C6_findBestGateway sampleMapA "a" "M2").1 _, by decide⟩

/-! ## Segment assembly -/

theorem findBestGateway_ok (m : MapData) (startNodeId targetMapId : String)
    (g : Node) (p : List String)
    (h : findBestGateway m startNodeId targetMapId = some (g, p)) :
    g ∈ findAllGatewaysToMap m targetMapId ∧
      findLocalPath m startNodeId g.id = .ok p := by
  rw [findBestGateway] at h
  by_cases hlen : (findAllGatewaysToMap m targetMapId).length = 0
  · rw [if_pos hlen] at h
    cases h
  · rw [if_neg hlen] at h
    rcases hfold : bestGatewayFold m startNodeId
        (findAllGatewaysToMap m targetMapId) none with _ | ⟨g0, p0, d0⟩
    · rw [hfold] at h
      cases h
    · rw [hfold] at h
      simp only [Option.map_some'] at h
      injection h with h2
      injection h2 with ha hb
      subst ha
      subst hb
      obtain ⟨h1, -, -⟩ :=
        bestGatewayFold_some m startNodeId _ none g0 p0 d0 hfold
      rcases h1 with h1 | ⟨hmem, hok, -⟩
      · cases h1
      · exact ⟨hmem, hok⟩

theorem findMapChain_refl (a : String) (allMaps : List MapData) :
    findMapChain a a allMaps = .ok [a] := by
  rw [findMapChain, if_pos rfl]

theorem findMapChain_ok_ne_nil (startMapId endMapId : String)
    (allMaps : List MapData) (chain : List String)
    (h : findMapChain startMapId endMapId allMaps = .ok chain) : chain ≠ [] := by
  by_cases hne : startMapId = endMapId
  · subst hne
    rw [findMapChain_refl] at h
    injection h with h2
    subst h2
    simp
  · by_cases hs : lookupA (buildMapMetaGraph allMaps) startMapId = none
    · rw [findMapChain_start_missing startMapId endMapId allMaps hne hs] at h
      cases h
    · by_cases he : lookupA (buildMapMetaGraph allMaps) endMapId = none
      · rw [findMapChain_end_missing startMapId endMapId allMaps hne hs he] at h
        cases h
      · rw [findMapChain_bfs startMapId endMapId allMaps hne hs he] at h
        rcases hb : bfsRun (buildMapMetaGraph allMaps) startMapId endMapId
            with _ | p
        · rw [hb] at h
          cases h
        · rw [hb] at h
          injection h with h2
          rw [← h2]
          exact MapChain.ne_nil
            ((bfsRun_spec (buildMapMetaGraph allMaps) startMapId endMapId hne).1
              p hb).1

theorem buildSegments_cons_nomap (getMap : String → Option MapData)
    (endNodeId currentMapId : String) (restChain : List String) (entry : String)
    (hg : getMap currentMapId = none) :
    buildSegments getMap endNodeId (currentMapId :: restChain) entry =
      .error ⟨mapNotFoundMsg "" currentMapId, .MAP_NOT_FOUND⟩ := by
  rw [buildSegments, hg]

theorem buildSegments_last_err (getMap : String → Option MapData)
    (endNodeId currentMapId : String) (entry : String) {m : MapData}
    {e : PathfinderError} (hg : getMap currentMapId = some m)
    (hlp : findLocalPath m entry endNodeId = .error e) :
    buildSegments getMap endNodeId [currentMapId] entry = .error e := by
  simp only [buildSegments, hg, hlp]

theorem buildSegments_last_ok (getMap : String → Option MapData)
    (endNodeId currentMapId : String) (entry : String) {m : MapData}
    {p : List String} (hg : getMap currentMapId = some m)
    (hlp : findLocalPath m entry endNodeId = .ok p) :
    buildSegments getMap endNodeId [currentMapId] entry =
      .ok [⟨currentMapId, p, none⟩] := by
  simp only [buildSegments, hg, hlp]

theorem buildSegments_cons_nogw (getMap : String → Option MapData)
    (endNodeId currentMapId nextMapId : String) (rest2 : List String)
    (entry : String) {m : MapData} (hg : getMap currentMapId = some m)
    (hbg : findBestGateway m entry nextMapId = none) :
    buildSegments getMap endNodeId (currentMapId :: nextMapId :: rest2) entry =
      .error ⟨gatewayNotFoundMsg currentMapId nextMapId, .GATEWAY_NOT_FOUND⟩ := by
  simp only [buildSegments, hg, hbg]

theorem buildSegments_cons_gw (getMap : String → Option MapData)
    (endNodeId currentMapId nextMapId : String) (rest2 : List String)
    (entry : String) {m : MapData} {g : Node} {p : List String}
    (hg : getMap currentMapId = some m)
    (hbg : findBestGateway m entry nextMapId = some (g, p)) :
    buildSegments getMap endNodeId (currentMapId :: nextMapId :: rest2) entry =
      segCons currentMapId p (g.gatewayConfig.getD ⟨"", ""⟩)
        (buildSegments getMap endNodeId (nextMapId :: rest2)
          (g.gatewayConfig.getD ⟨"", ""⟩).targetNodeId) := by
  simp only [buildSegments, hg, hbg]

/-- Structural invariants of a successful segment assembly: the segment
map ids list the chain, paths are nonempty, consecutive segments are
linked, the first path starts at the threaded entry node and the last
segment targets nothing and ends at the requested end node. -/
theorem buildSegments_spec (getMap : String → Option MapData) (endNodeId : String) :
    ∀ (chain : List String) (entry : String) (segs : List NavigationSegment),
      buildSegments getMap endNodeId chain entry = .ok segs →
      segs.map (fun s => s.mapId) = chain ∧
      (∀ s ∈ segs, s.pathNodeIds ≠ []) ∧
      List.Chain' SegLink segs ∧
      (∀ s0 ∈ segs.head?, s0.pathNodeIds.head? = some entry) ∧
      (∀ sl ∈ segs.getLast?, sl.transitionTarget = none ∧
        sl.pathNodeIds.getLast? = some endNodeId) := by
  intro chain
  induction chain with
  | nil =>
      intro entry segs h
      rw [buildSegments] at h
      injection h with h2
      subst h2
      exact ⟨rfl, by simp, by simp, by simp, by simp⟩
  | cons currentMapId restChain ih =>
      intro entry segs h
      rcases hg : getMap currentMapId with _ | m
      · rw [buildSegments_cons_nomap getMap endNodeId currentMapId restChain
          entry hg] at h
        cases h
      · rcases restChain with _ | ⟨nextMapId, rest2⟩
        · rcases hlp : findLocalPath m entry endNodeId with e | p
          · rw [buildSegments_last_err getMap endNodeId currentMapId entry
              hg hlp] at h
            cases h
          · rw [buildSegments_last_ok getMap endNodeId currentMapId entry
              hg hlp] at h
            injection h with h2
            subst h2
            obtain ⟨hhead, hlast, hne⟩ := findLocalPath_ok_shape m entry endNodeId p hlp
            refine ⟨by simp, ?_, by simp, ?_, ?_⟩
            · intro s hs
              rw [List.mem_singleton] at hs
              subst hs
              exact hne
            · intro s0 hs0
              simp only [List.head?_cons, Option.mem_some_iff] at hs0
              subst hs0
              exact hhead
            · intro sl hsl
              simp only [List.getLast?_singleton, Option.mem_some_iff] at hsl
              subst hsl
              exact ⟨rfl, hlast⟩
        · rcases hbg : findBestGateway m entry nextMapId with _ | ⟨g, p⟩
          · rw [buildSegments_cons_nogw getMap endNodeId currentMapId nextMapId
              rest2 entry hg hbg] at h
            cases h
          · rw [buildSegments_cons_gw getMap endNodeId currentMapId nextMapId
              rest2 entry hg hbg] at h
            obtain ⟨hgmem, hglp⟩ := findBestGateway_ok m entry nextMapId g p hbg
            obtain ⟨-, -, cfg0, hcfg0, hct⟩ :=
              (mem_findAllGatewaysToMap m nextMapId g).mp hgmem
            have hcfg : g.gatewayConfig.getD ⟨"", ""⟩ = cfg0 := by rw [hcfg0]; rfl
            rw [hcfg] at h
            rcases hrec : buildSegments getMap endNodeId (nextMapId :: rest2)
                cfg0.targetNodeId with e | rs
            · rw [hrec] at h
              simp only [segCons] at h
              cases h
            · rw [hrec] at h
              simp only [segCons] at h
              injection h with h2
              subst h2
              obtain ⟨hmap, hne, hchain, hhead, hlast⟩ := ih cfg0.targetNodeId rs hrec
              obtain ⟨hphead, -, hpne⟩ := findLocalPath_ok_shape m entry g.id p hglp
              have hrsne : rs ≠ [] := by
                intro hcontra
                rw [hcontra] at hmap
                simp at hmap
              rcases hrs : rs with _ | ⟨b0, rs2⟩
              · exact absurd hrs hrsne
              · subst hrs
                have hb0 : b0.mapId = nextMapId := by
                  simp only [List.map_cons] at hmap
                  injection hmap with h3 h4
                have hb0head : b0.pathNodeIds.head? = some cfg0.targetNodeId := by
                  exact hhead b0 (by simp)
                refine ⟨?_, ?_, ?_, ?_, ?_⟩
                · simp only [List.map_cons] at hmap ⊢
                  rw [hmap]
                · intro s hs
                  rcases List.mem_cons.mp hs with rfl | hs
                  · exact hpne
                  · exact hne s hs
                · rw [List.chain'_cons]
                  refine ⟨⟨⟨cfg0.targetMapId, cfg0.targetNodeId⟩, rfl, ?_, hb0head⟩,
                    hchain⟩
                  rw [hb0]
                  exact hct
                · intro s0 hs0
                  simp only [List.head?_cons, Option.mem_some_iff] at hs0
                  subst hs0
                  exact hphead
                · intro sl hsl
                  rw [List.getLast?_cons_cons] at hsl
                  exact hlast sl hsl

theorem getLast_some_of_ne_nil {α : Type} :
    ∀ (l : List α), l ≠ [] → ∃ x, l.getLast? = some x := by
  intro l
  induction l with
  | nil => intro h; exact absurd rfl h
  | cons a t ih =>
      intro h
      rcases t with _ | ⟨b, t2⟩
      · exact ⟨a, rfl⟩
      · obtain ⟨x, hx⟩ := ih (by simp)
        exact ⟨x, by rw [List.getLast?_cons_cons]; exact hx⟩

theorem genNav_of_run_err (allMaps : List MapData) (getMap : String → Option MapData)
    (startMapId startNodeId endMapId endNodeId : String) {e : PathfinderError}
    (h : navRun allMaps getMap startMapId startNodeId endMapId endNodeId = .error e) :
    generateNavigationPath allMaps getMap startMapId startNodeId endMapId endNodeId =
      { success := false, totalMaps := 0, totalNodes := 0, segments := []
        error := some e.message } := by
  rw [generateNavigationPath, h]

theorem genNav_of_run_ok (allMaps : List MapData) (getMap : String → Option MapData)
    (startMapId startNodeId endMapId endNodeId : String) {chain : List String}
    {segs : List NavigationSegment}
    (h : navRun allMaps getMap startMapId startNodeId endMapId endNodeId =
      .ok (chain, segs)) :
    generateNavigationPath allMaps getMap startMapId startNodeId endMapId endNodeId =
      { success := true, totalMaps := chain.length
        totalNodes := (segs.map (fun seg => seg.pathNodeIds.length)).sum
        segments := segs, error := none } := by
  rw [generateNavigationPath, h]

theorem navRun_invalid (allMaps : List MapData) (getMap : String → Option MapData)
    (startMapId startNodeId endMapId endNodeId : String)
    (hv : startMapId = "" ∨ startNodeId = "" ∨ endMapId = "" ∨ endNodeId = "") :
    navRun allMaps getMap startMapId startNodeId endMapId endNodeId =
      .error ⟨invalidInputMsg, .INVALID_INPUT⟩ := by
  rw [navRun, if_pos hv]

theorem navRun_chain_err (allMaps : List MapData) (getMap : String → Option MapData)
    (startMapId startNodeId endMapId endNodeId : String) {e : PathfinderError}
    (hv : ¬ (startMapId = "" ∨ startNodeId = "" ∨ endMapId = "" ∨ endNodeId = ""))
    (hc : findMapChain startMapId endMapId allMaps = .error e) :
    navRun allMaps getMap startMapId startNodeId endMapId endNodeId = .error e := by
  simp only [navRun, if_neg hv, hc]

theorem navRun_build_err (allMaps : List MapData) (getMap : String → Option MapData)
    (startMapId startNodeId endMapId endNodeId : String) {chain : List String}
    {e : PathfinderError}
    (hv : ¬ (startMapId = "" ∨ startNodeId = "" ∨ endMapId = "" ∨ endNodeId = ""))
    (hc : findMapChain startMapId endMapId allMaps = .ok chain)
    (hb : buildSegments getMap endNodeId chain startNodeId = .error e) :
    navRun allMaps getMap startMapId startNodeId endMapId endNodeId = .error e := by
  simp only [navRun, if_neg hv, hc, hb]

theorem navRun_run_ok (allMaps : List MapData) (getMap : String → Option MapData)
    (startMapId startNodeId endMapId endNodeId : String) {chain : List String}
    {segs : List NavigationSegment}
    (hv : ¬ (startMapId = "" ∨ startNodeId = "" ∨ endMapId = "" ∨ endNodeId = ""))
    (hc : findMapChain startMapId endMapId allMaps = .ok chain)
    (hb : buildSegments getMap endNodeId chain startNodeId = .ok segs) :
    navRun allMaps getMap startMapId startNodeId endMapId endNodeId =
      .ok (chain, segs) := by
  simp only [navRun, if_neg hv, hc, hb]

theorem navRun_ok_inv (allMaps : List MapData) (getMap : String → Option MapData)
    (startMapId startNodeId endMapId endNodeId : String) (chain : List String)
    (segs : List NavigationSegment)
    (h : navRun allMaps getMap startMapId startNodeId endMapId endNodeId =
      .ok (chain, segs)) :
    findMapChain startMapId endMapId allMaps = .ok chain ∧
      buildSegments getMap endNodeId chain startNodeId = .ok segs := by
  by_cases hv : startMapId = "" ∨ startNodeId = "" ∨ endMapId = "" ∨ endNodeId = ""
  · rw [navRun_invalid allMaps getMap startMapId startNodeId endMapId endNodeId hv] at h
    cases h
  · rcases hc : findMapChain startMapId endMapId allMaps with e | chain2
    · rw [navRun_chain_err allMaps getMap startMapId startNodeId endMapId endNodeId
        hv hc] at h
      cases h
    · rcases hb : buildSegments getMap endNodeId chain2 startNodeId with e | segs2
      · rw [navRun_build_err allMaps getMap startMapId startNodeId endMapId endNodeId
          hv hc hb] at h
        cases h
      · rw [navRun_run_ok allMaps getMap startMapId startNodeId endMapId endNodeId
          hv hc hb] at h
        injection h with h2
        injection h2 with h3 h4
        subst h3
        subst h4
        exact ⟨rfl, hb⟩

/-- C2: every successful result of `generateNavigationPath` satisfies the
four result invariants: each segment path is nonempty; consecutive
segments are linked (the transition target names the next map and the
next path starts at the announced entry node); the final segment has no
transition target and its path ends at the requested end node; the first
segment path starts at the requested start node. -/
theorem C2_generateNavigationPath_invariants (allMaps : List MapData)
    (getMap : String → Option MapData)
    (startMapId startNodeId endMapId endNodeId : String) (r : NavigationResult)
    (hr : generateNavigationPath allMaps getMap startMapId startNodeId
      endMapId endNodeId = r)
    (h : r.success = true) :
    (∀ s ∈ r.segments, 1 ≤ s.pathNodeIds.length) ∧
    List.Chain' SegLink r.segments ∧
    (∃ sl, r.segments.getLast? = some sl ∧ sl.transitionTarget = none ∧
      sl.pathNodeIds.getLast? = some endNodeId) ∧
    (∃ s0, r.segments.head? = some s0 ∧ s0.pathNodeIds.head? = some startNodeId) := by
  rcases hrun : navRun allMaps getMap startMapId startNodeId endMapId endNodeId
      with e | ⟨chain, segs⟩
  · rw [genNav_of_run_err allMaps getMap startMapId startNodeId endMapId endNodeId
      hrun] at hr
    rw [← hr] at h
    simp at h
  · rw [genNav_of_run_ok allMaps getMap startMapId startNodeId endMapId endNodeId
      hrun] at hr
    obtain ⟨hc, hb⟩ := navRun_ok_inv allMaps getMap startMapId startNodeId
      endMapId endNodeId chain segs hrun
    obtain ⟨hmap, hne, hchain, hhead, hlast⟩ :=
      buildSegments_spec getMap endNodeId chain startNodeId segs hb
    have hchne : chain ≠ [] :=
      findMapChain_ok_ne_nil startMapId endMapId allMaps chain hc
    have hsegne : segs ≠ [] := by
      intro hcontra
      rw [hcontra] at hmap
      simp only [List.map_nil] at hmap
      exact hchne hmap.symm
    subst hr
    refine ⟨?_, hchain, ?_, ?_⟩
    · intro s hs
      exact List.length_pos.mpr (hne s hs)
    · obtain ⟨sl, hsl⟩ := getLast_some_of_ne_nil segs hsegne
      obtain ⟨h1, h2⟩ := hlast sl hsl
      exact ⟨sl, hsl, h1, h2⟩
    · rcases segs with _ | ⟨s0, srest⟩
      · exact absurd rfl hsegne
      · exact ⟨s0, rfl, hhead s0 rfl⟩

theorem C2_generateNavigationPath_invariants_witness :
    (generateNavigationPath [sampleMapA, sampleMapB] sampleGetMap
      "M1" "a" "M2" "r").success = true ∧
    ((∀ s ∈ (generateNavigationPath [sampleMapA, sampleMapB] sampleGetMap
        "M1" "a" "M2" "r").segments, 1 ≤ s.pathNodeIds.length) ∧
    List.Chain' SegLink (generateNavigationPath [sampleMapA, sampleMapB] sampleGetMap
      "M1" "a" "M2" "r").segments ∧
    (∃ sl, (generateNavigationPath [sampleMapA, sampleMapB] sampleGetMap
        "M1" "a" "M2" "r").segments.getLast? = some sl ∧
      sl.transitionTarget = none ∧ sl.pathNodeIds.getLast? = some "r") ∧
    (∃ s0, (generateNavigationPath [sampleMapA, sampleMapB] sampleGetMap
        "M1" "a" "M2" "r").segments.head? = some s0 ∧
      s0.pathNodeIds.head? = some "a")) :=
  ⟨by decide, C2_generateNavigationPath_invariants [sampleMapA, sampleMapB]
    sampleGetMap "M1" "a" "M2" "r" _ rfl (by decide)⟩

/-- C8: `generateNavigationPath` is total: it always returns a
`NavigationResult`, either a successful one, or a failure that carries
zero counters, an empty segment list and the message of the single
`PathfinderError` on which the run aborted — never a partial segment
list; empty input identifiers yield exactly the invalid-input failure. -/
theorem C8_generateNavigationPath_totality (allMaps : List MapData)
    (getMap : String → Option MapData)
    (startMapId startNodeId endMapId endNodeId : String) (r : NavigationResult)
    (hr : generateNavigationPath allMaps getMap startMapId startNodeId
      endMapId endNodeId = r) :
    (r.success = true ∨
      (r.success = false ∧ r.totalMaps = 0 ∧ r.totalNodes = 0 ∧ r.segments = [] ∧
        ∃ e : PathfinderError,
          navRun allMaps getMap startMapId startNodeId endMapId endNodeId =
            .error e ∧ r.error = some e.message)) ∧
    ((startMapId = "" ∨ startNodeId = "" ∨ endMapId = "" ∨ endNodeId = "") →
      r = { success := false, totalMaps := 0, totalNodes := 0, segments := []
            error := some invalidInputMsg }) := by
  rcases hrun : navRun allMaps getMap startMapId startNodeId endMapId endNodeId
      with e | ⟨chain, segs⟩
  · rw [genNav_of_run_err allMaps getMap startMapId startNodeId endMapId endNodeId
      hrun] at hr
    subst hr
    refine ⟨Or.inr ⟨rfl, rfl, rfl, rfl, e, rfl, rfl⟩, ?_⟩
    intro hv
    have hinv := navRun_invalid allMaps getMap startMapId startNodeId endMapId
      endNodeId hv
    rw [hinv] at hrun
    injection hrun with h2
    rw [← h2]
  · rw [genNav_of_run_ok allMaps getMap startMapId startNodeId endMapId endNodeId
      hrun] at hr
    subst hr
    refine ⟨Or.inl rfl, ?_⟩
    intro hv
    have hinv := navRun_invalid allMaps getMap startMapId startNodeId endMapId
      endNodeId hv
    rw [hinv] at hrun
    cases hrun

theorem C8_generateNavigationPath_totality_witness :
    ((generateNavigationPath [] sampleGetMap "" "a" "M2" "r").success = true ∨
      ((generateNavigationPath [] sampleGetMap "" "a" "M2" "r").success = false ∧
        (generateNavigationPath [] sampleGetMap "" "a" "M2" "r").totalMaps = 0 ∧
        (generateNavigationPath [] sampleGetMap "" "a" "M2" "r").totalNodes = 0 ∧
        (generateNavigationPath [] sampleGetMap "" "a" "M2" "r").segments = [] ∧
        ∃ e : PathfinderError,
          navRun [] sampleGetMap "" "a" "M2" "r" = .error e ∧
          (generateNavigationPath [] sampleGetMap "" "a" "M2" "r").error =
            some e.message)) ∧
    ((("" : String) = "" ∨ ("a" : String) = "" ∨ ("M2" : String) = "" ∨
        ("r" : String) = "") →
      generateNavigationPath [] sampleGetMap "" "a" "M2" "r" =
        { success := false, totalMaps := 0, totalNodes := 0, segments := []
          error := some invalidInputMsg }) :=
  C8_generateNavigationPath_totality [] sampleGetMap "" "a" "M2" "r" _ rfl

theorem pairwiseSegmentsOk_iff :
    ∀ l : List NavigationSegment,
      pairwiseSegmentsOk l = true ↔ List.Chain' SegLink l := by
  intro l
  induction l with
  | nil => simp [pairwiseSegmentsOk]
  | cons a t ih =>
      rcases t with _ | ⟨b, t2⟩
      · simp [pairwiseSegmentsOk]
      · rw [List.chain'_cons, ← ih]
        rcases htt : a.transitionTarget with _ | tt
        · constructor
          · intro h
            simp only [pairwiseSegmentsOk, htt, Bool.false_and] at h
            cases h
          · rintro ⟨⟨t3, hsome, -, -⟩, -⟩
            rw [htt] at hsome
            cases hsome
        · constructor
          · intro h
            simp only [pairwiseSegmentsOk, htt, Bool.and_eq_true, beq_iff_eq] at h
            obtain ⟨⟨h1, h2⟩, h3⟩ := h
            exact ⟨⟨tt, htt, h1, h2⟩, h3⟩
          · rintro ⟨⟨t3, hsome, hmap, hhead⟩, hchain⟩
            rw [htt] at hsome
            injection hsome with h4
            subst h4
            simp only [pairwiseSegmentsOk, htt, Bool.and_eq_true, beq_iff_eq]
            exact ⟨⟨hmap, hhead⟩, hchain⟩

theorem validateNavigationResult_iff (r : NavigationResult) :
    validateNavigationResult r = true ↔
      (r.success = true ∧ r.segments ≠ [] ∧ List.Chain' SegLink r.segments ∧
        ∀ sl ∈ r.segments.getLast?, sl.transitionTarget = none) := by
  rw [validateNavigationResult]
  by_cases hc : (!r.success || r.segments.length == 0) = true
  · rw [if_pos hc]
    simp only [Bool.or_eq_true, Bool.not_eq_true', beq_iff_eq] at hc
    constructor
    · intro h
      cases h
    · rintro ⟨h1, h2, -, -⟩
      rcases hc with hc | hc
      · rw [h1] at hc
        cases hc
      · exact absurd (List.length_eq_zero.mp hc) h2
  · rw [if_neg hc]
    simp only [Bool.or_eq_true, Bool.not_eq_true', beq_iff_eq, not_or] at hc
    obtain ⟨hc1, hc2⟩ := hc
    have hsucc : r.success = true := by
      rcases hx : r.success
      · exact absurd hx hc1
      · rfl
    have hne : r.segments ≠ [] := by
      intro hnil
      exact hc2 (by rw [hnil]; rfl)
    constructor
    · intro h
      rw [Bool.and_eq_true] at h
      obtain ⟨h1, h2⟩ := h
      refine ⟨hsucc, hne, (pairwiseSegmentsOk_iff r.segments).mp h1, ?_⟩
      intro sl hsl
      rw [Option.mem_def] at hsl
      rw [hsl] at h2
      simp only [beq_iff_eq] at h2
      exact h2
    · rintro ⟨-, -, hchain, hlastn⟩
      rw [Bool.and_eq_true]
      refine ⟨(pairwiseSegmentsOk_iff r.segments).mpr hchain, ?_⟩
      rcases hl : r.segments.getLast? with _ | sl
      · rfl
      · have hn := hlastn sl (by rw [Option.mem_def, hl])
        show (sl.transitionTarget == none) = true
        simp only [beq_iff_eq]
        exact hn

/-- Counterexample to C3 as stated: a hand-built result with one empty
segment path passes `validateNavigationResult` although result
invariant 1 (every segment path has length at least one) fails, so the
validator does not check all four data-model invariants. -/
theorem C3_validateNavigationResult_counterexample :
    validateNavigationResult
      { success := true, totalMaps := 1, totalNodes := 0
        segments := [⟨"M1", [], none⟩], error := none } = true ∧
    ¬ (∀ s ∈ ({ success := true, totalMaps := 1, totalNodes := 0
                segments := [⟨"M1", ([] : List String), none⟩]
                error := none } :
          NavigationResult).segments, 1 ≤ s.pathNodeIds.length) := by
  constructor
  · decide
  · intro h
    have := h ⟨"M1", [], none⟩ (by simp)
    simp at this

/-- C3 (amended): `validateNavigationResult` returns true iff the result
is successful, has a nonempty segment list whose consecutive segments are
linked (invariant 2) and whose final segment carries no transition target
(invariant 3); path-nonemptiness (invariant 1) and the endpoint
invariant (4) are not checked. In particular it rejects a mismatched
transition and accepts every successful `generateNavigationPath`
result. -/
theorem C3_validateNavigationResult_amended :
    (∀ r : NavigationResult, validateNavigationResult r = true ↔
      (r.success = true ∧ r.segments ≠ [] ∧ List.Chain' SegLink r.segments ∧
        ∀ sl ∈ r.segments.getLast?, sl.transitionTarget = none)) ∧
    (∀ (allMaps : List MapData) (getMap : String → Option MapData)
        (startMapId startNodeId endMapId endNodeId : String) (r : NavigationResult),
      generateNavigationPath allMaps getMap startMapId startNodeId endMapId
        endNodeId = r →
      r.success = true → validateNavigationResult r = true) := by
  refine ⟨validateNavigationResult_iff, ?_⟩
  intro allMaps getMap startMapId startNodeId endMapId endNodeId r hr h
  rcases hrun : navRun allMaps getMap startMapId startNodeId endMapId endNodeId
      with e | ⟨chain, segs⟩
  · rw [genNav_of_run_err allMaps getMap startMapId startNodeId endMapId endNodeId
      hrun] at hr
    rw [← hr] at h
    simp at h
  · rw [genNav_of_run_ok allMaps getMap startMapId startNodeId endMapId endNodeId
      hrun] at hr
    obtain ⟨hcm, hb⟩ := navRun_ok_inv allMaps getMap startMapId startNodeId
      endMapId endNodeId chain segs hrun
    obtain ⟨hmap, -, hchain, -, hlast⟩ :=
      buildSegments_spec getMap endNodeId chain startNodeId segs hb
    have hchne : chain ≠ [] :=
      findMapChain_ok_ne_nil startMapId endMapId allMaps chain hcm
    have hsegne : segs ≠ [] := by
      intro hcontra
      rw [hcontra] at hmap
      simp only [List.map_nil] at hmap
      exact hchne hmap.symm
    subst hr
    rw [validateNavigationResult_iff]
    refine ⟨rfl, hsegne, hchain, ?_⟩
    intro sl hsl
    exact (hlast sl hsl).1

end IndoorNav
